import Mathlib

/-!
Verification development for the DBLens cross-engine migration core.

Shallow embedding of the Python sources:
  backend/app/utils/data_type_mapper.py   (DataTypeMapper)
  backend/app/utils/schema_inspector.py   (SchemaInspector)
  backend/app/utils/migration_engine.py   (MigrationEngine: _resolve_dependencies,
                                           _convert_data_for_target, _convert_value_for_mysql,
                                           migrate)
  backend/app/api/routes/migrations.py    (run_migration_job / update_progress / cancellation)

Python dicts with a fixed key set are embedded as structures with `Option` fields
for keys that may be absent; dict literals used as lookup tables are embedded as
association lists searched with `List.find?` (Python dict literals here have
distinct keys, so first-match lookup coincides with dict lookup).
-/

namespace DBLens

/-! ## Data type mapper (`backend/app/utils/data_type_mapper.py`)

A column, as consumed by `DataTypeMapper`, is a Python dict.  The mapper reads the
keys `name` / `column_name`, the type keys `data_type` / `type` / `column_type` /
`datatype`, and `is_nullable`; each may be absent.  The Python key `type` is the
Lean keyword `type`, so the field is called `type'` here. -/
structure Column where
  name : Option String := none
  column_name : Option String := none
  data_type : Option String := none
  type' : Option String := none
  column_type : Option String := none
  datatype : Option String := none
  is_nullable : Option Bool := none
deriving Repr, DecidableEq

/-- Lookup in an embedded Python dict literal, with default (`dict.get(k, dflt)`). -/
def dictGet (d : List (String × String)) (k : String) (dflt : String) : String :=
  match d.find? (fun kv => kv.1 == k) with
  | some kv => kv.2
  | none => dflt

/-- `DataTypeMapper.get_column_data_type`: first present key among
`data_type`, `type`, `column_type`, `datatype`; defaults to `"text"`. -/
def get_column_data_type (col : Column) : String :=
  match col.data_type with
  | some v => v
  | none =>
    match col.type' with
    | some v => v
    | none =>
      match col.column_type with
      | some v => v
      | none =>
        match col.datatype with
        | some v => v
        | none => "text"

/-- `DataTypeMapper.MYSQL_TO_POSTGRESQL`. -/
def MYSQL_TO_POSTGRESQL : List (String × String) :=
  [("tinyint", "smallint"), ("tinyint(1)", "boolean"), ("smallint", "smallint"),
   ("mediumint", "integer"), ("int", "integer"), ("integer", "integer"),
   ("bigint", "bigint"), ("float", "real"), ("double", "double precision"),
   ("decimal", "decimal"), ("numeric", "numeric"), ("char", "char"),
   ("varchar", "varchar"), ("tinytext", "text"), ("text", "text"),
   ("mediumtext", "text"), ("longtext", "text"), ("binary", "bytea"),
   ("varbinary", "bytea"), ("tinyblob", "bytea"), ("blob", "bytea"),
   ("mediumblob", "bytea"), ("longblob", "bytea"), ("date", "date"),
   ("datetime", "timestamp"), ("timestamp", "timestamp"), ("time", "time"),
   ("year", "smallint"), ("enum", "varchar"), ("set", "text"),
   ("json", "json"), ("boolean", "boolean")]

/-- `DataTypeMapper.POSTGRESQL_TO_MYSQL`. -/
def POSTGRESQL_TO_MYSQL : List (String × String) :=
  [("smallint", "smallint"), ("integer", "int"), ("bigint", "bigint"),
   ("serial", "int auto_increment"), ("bigserial", "bigint auto_increment"),
   ("real", "float"), ("double precision", "double"), ("decimal", "decimal"),
   ("numeric", "decimal"), ("char", "char"), ("varchar", "varchar"),
   ("text", "text"), ("character varying", "varchar"), ("bytea", "blob"),
   ("date", "date"), ("timestamp", "datetime"),
   ("timestamp without time zone", "datetime"),
   ("timestamp with time zone", "datetime"), ("time", "time"),
   ("time without time zone", "time"), ("time with time zone", "time"),
   ("boolean", "tinyint(1)"), ("json", "json"), ("jsonb", "json"),
   ("uuid", "char(36)")]

/-- `DataTypeMapper.SQLITE_TYPE_MAP`. -/
def SQLITE_TYPE_MAP : List (String × String) :=
  [("integer", "INTEGER"), ("bigint", "INTEGER"), ("smallint", "INTEGER"),
   ("tinyint", "INTEGER"), ("int", "INTEGER"), ("serial", "INTEGER"),
   ("bigserial", "INTEGER"), ("varchar", "TEXT"), ("char", "TEXT"),
   ("text", "TEXT"), ("mediumtext", "TEXT"), ("longtext", "TEXT"),
   ("character varying", "TEXT"), ("decimal", "REAL"), ("numeric", "REAL"),
   ("float", "REAL"), ("double", "REAL"), ("real", "REAL"),
   ("double precision", "REAL"), ("boolean", "INTEGER"), ("bool", "INTEGER"),
   ("tinyint(1)", "INTEGER"), ("date", "TEXT"), ("datetime", "TEXT"),
   ("timestamp", "TEXT"), ("time", "TEXT"), ("blob", "BLOB"),
   ("bytea", "BLOB"), ("binary", "BLOB")]

/-! String primitives.  The Lean core `String.toLower`/`replace`/`trim` are not
kernel-reducible, so the Python string operations the mapper uses are embedded
as structurally recursive functions on character lists (exact for the ASCII
strings that database type names are). -/

/-- Python `str.lower` on one character (ASCII range). -/
def lowerChar (c : Char) : Char :=
  if 'A' ≤ c ∧ c ≤ 'Z' then Char.ofNat (c.toNat + 32) else c

/-- Python `str.lower` (ASCII). -/
def pyLower (s : String) : String := ⟨s.toList.map lowerChar⟩

/-- Whether the first list starts with the second. -/
def listStartsWith : List Char → List Char → Bool
  | _, [] => true
  | [], _ :: _ => false
  | a :: as, b :: bs => a == b && listStartsWith as bs

/-- Fuel-driven worker for `pyReplace`; the fuel is at least the length of the
scanned list at every call site, so the `0` case is never reached. -/
def replaceListAux (pat rep : List Char) : Nat → List Char → List Char
  | 0, l => l
  | _, [] => []
  | f + 1, c :: cs =>
    if listStartsWith (c :: cs) pat ∧ pat ≠ [] then
      rep ++ replaceListAux pat rep f (List.drop pat.length (c :: cs))
    else
      c :: replaceListAux pat rep f cs

/-- Python `s.replace(pat, rep)`: all non-overlapping occurrences, left to
right (for a non-empty `pat`, as at every use below). -/
def pyReplace (s pat rep : String) : String :=
  ⟨replaceListAux pat.toList rep.toList s.toList.length s.toList⟩

/-- Python whitespace for `str.strip`. -/
def isSpaceChar (c : Char) : Bool :=
  c = ' ' ∨ c = '\t' ∨ c = '\n' ∨ c = '\r' ∨ c = Char.ofNat 11 ∨ c = Char.ofNat 12

/-- Python `str.strip()`. -/
def pyStrip (s : String) : String :=
  ⟨((s.toList.dropWhile isSpaceChar).reverse.dropWhile isSpaceChar).reverse⟩

/-- Python `c in s` for a single character. -/
def strContains (s : String) (c : Char) : Bool := s.toList.contains c

/-- Python `s.split('(')[0]`: the part of `s` before the first `'('`. -/
def splitParen (s : String) : String :=
  ⟨s.toList.takeWhile (fun c => c ≠ '(')⟩

/-- Python `s[s.index('('):s.index(')')+1]` (both indices of first occurrences,
over the whole string).  `none` models the `ValueError` Python raises when one of
the characters is absent; the callers below only reach this after checking that
`'('` occurs, and a type string with `'('` but no `')'` would crash the source. -/
def parenSuffix (s : String) : Option String :=
  let l := s.toList
  match l.findIdx? (fun c => c = '('), l.findIdx? (fun c => c = ')') with
  | some i, some j => some ⟨(l.drop i).take (j + 1 - i)⟩
  | _, _ => none

/-- `DataTypeMapper.map_to_sqlite`. -/
def map_to_sqlite (source_type : String) (_source_db : String) : String :=
  dictGet SQLITE_TYPE_MAP (splitParen (pyLower source_type)) "TEXT"

/-- The mongo→postgresql dict literal inside `get_create_table_sql_postgresql`. -/
def mongoToPg : List (String × String) :=
  [("string", "text"), ("str", "text"), ("integer", "integer"), ("int", "integer"),
   ("double", "double precision"), ("float", "double precision"),
   ("boolean", "boolean"), ("bool", "boolean"), ("date", "timestamp"),
   ("datetime", "timestamp"), ("object", "jsonb"), ("dict", "jsonb"),
   ("array", "jsonb"), ("list", "jsonb"), ("objectid", "varchar(24)")]

/-- The sqlite→postgresql dict literal inside `get_create_table_sql_postgresql`. -/
def sqliteToPg : List (String × String) :=
  [("integer", "integer"), ("text", "text"), ("real", "double precision"),
   ("blob", "bytea")]

/-- Python `col.get("name", col.get("column_name", "unknown"))`. -/
def colName (col : Column) : String :=
  match col.name with
  | some n => n
  | none =>
    match col.column_name with
    | some n => n
    | none => "unknown"

/-- The per-column target type computed inside
`DataTypeMapper.get_create_table_sql_postgresql` (the value of `col_type`
just before the column definition string is assembled). -/
def columnTypePostgresql (source_db : String) (col : Column) : String :=
  let source_type := get_column_data_type col
  if source_db = "mysql" then
    let cleaned_type := pyStrip (pyReplace (pyReplace (pyLower source_type) " unsigned" "") " zerofill" "")
    let base_type := splitParen cleaned_type
    let col_type := dictGet MYSQL_TO_POSTGRESQL base_type source_type
    if strContains source_type '(' ∧ col_type ∈ ["char", "varchar", "decimal", "numeric"] then
      if base_type = "enum" ∨ base_type = "set" then
        if col_type = "varchar" then "varchar(255)" else col_type
      else
        col_type ++ (parenSuffix source_type).getD ""
    else col_type
  else if source_db = "sqlite" then
    dictGet sqliteToPg (pyLower source_type) "text"
  else if source_db = "mongodb" then
    let col_type := dictGet mongoToPg (pyLower source_type) "text"
    if colName col = "_id" then "varchar(255)" else col_type
  else source_type

/-- The mongo→mysql dict literal inside `get_create_table_sql_mysql`. -/
def mongoToMysql : List (String × String) :=
  [("string", "TEXT"), ("str", "TEXT"), ("integer", "INT"), ("int", "INT"),
   ("double", "DOUBLE"), ("float", "DOUBLE"), ("boolean", "TINYINT(1)"),
   ("bool", "TINYINT(1)"), ("date", "DATETIME"), ("datetime", "DATETIME"),
   ("object", "JSON"), ("dict", "JSON"), ("array", "JSON"), ("list", "JSON"),
   ("objectid", "VARCHAR(24)")]

/-- The sqlite→mysql dict literal inside `get_create_table_sql_mysql`
(primary-key text columns become `VARCHAR(255)`). -/
def sqliteToMysql (is_primary_key : Bool) : List (String × String) :=
  [("integer", "INT"), ("text", if is_primary_key then "VARCHAR(255)" else "TEXT"),
   ("real", "DOUBLE"), ("blob", "BLOB")]

/-- The per-column target type computed inside
`DataTypeMapper.get_create_table_sql_mysql`. -/
def columnTypeMysql (source_db : String) (col : Column) (primary_keys : List String) : String :=
  let source_type := get_column_data_type col
  let is_primary_key := primary_keys.contains (colName col)
  if source_db = "postgresql" then
    let base_type := splitParen (pyLower source_type)
    let col_type := dictGet POSTGRESQL_TO_MYSQL base_type source_type
    if col_type = "varchar" ∧ ¬ strContains col_type '(' then "varchar(255)"
    else if col_type = "char" ∧ ¬ strContains col_type '(' then "char(255)"
    else col_type
  else if source_db = "sqlite" then
    dictGet (sqliteToMysql is_primary_key) (pyLower source_type)
      (if is_primary_key then "VARCHAR(255)" else "TEXT")
  else if source_db = "mongodb" then
    let col_type := dictGet mongoToMysql (pyLower source_type) "TEXT"
    if colName col = "_id" then "VARCHAR(255)" else col_type
  else source_type

/-- The per-column target type computed inside
`DataTypeMapper.get_create_table_sql_sqlite`. -/
def columnTypeSqlite (source_db : String) (col : Column) : String :=
  if source_db = "mongodb" ∧ colName col = "_id" then "TEXT"
  else map_to_sqlite (get_column_data_type col) source_db

/-- One column definition string of `get_create_table_sql_postgresql`. -/
def pgColDef (source_db : String) (col : Column) : String :=
  let d := "\"" ++ colName col ++ "\" " ++ columnTypePostgresql source_db col
  if col.is_nullable.getD true then d else d ++ " NOT NULL"

/-- `DataTypeMapper.get_create_table_sql_postgresql`.  `none` models the
exception raised when `columns` is empty. -/
def get_create_table_sql_postgresql (table_name : String) (columns : List Column)
    (primary_keys : List String) (source_db : String) : Option String :=
  if columns.isEmpty then none
  else
    let col_defs := columns.map (pgColDef source_db)
    let col_defs := if primary_keys.isEmpty then col_defs
      else col_defs ++ ["PRIMARY KEY (" ++
        String.intercalate ", " (primary_keys.map (fun pk => "\"" ++ pk ++ "\"")) ++ ")"]
    some ("CREATE TABLE \"" ++ table_name ++ "\" (\n  " ++
      String.intercalate ",\n  " col_defs ++ "\n)")

/-- One column definition string of `get_create_table_sql_mysql`. -/
def mysqlColDef (source_db : String) (col : Column) (primary_keys : List String) : String :=
  let d := "`" ++ colName col ++ "` " ++ columnTypeMysql source_db col primary_keys
  if col.is_nullable.getD true then d else d ++ " NOT NULL"

/-- `DataTypeMapper.get_create_table_sql_mysql` (never raises: no empty-column check). -/
def get_create_table_sql_mysql (table_name : String) (columns : List Column)
    (primary_keys : List String) (source_db : String) : String :=
  let col_defs := columns.map (fun c => mysqlColDef source_db c primary_keys)
  let col_defs := if primary_keys.isEmpty then col_defs
    else col_defs ++ ["PRIMARY KEY (" ++
      String.intercalate ", " (primary_keys.map (fun pk => "`" ++ pk ++ "`")) ++ ")"]
  "CREATE TABLE `" ++ table_name ++ "` (\n  " ++
    String.intercalate ",\n  " col_defs ++
    "\n) ENGINE=InnoDB DEFAULT CHARSET=utf8mb4 COLLATE=utf8mb4_unicode_ci"

/-- One column definition string of `get_create_table_sql_sqlite`. -/
def sqliteColDef (source_db : String) (col : Column) : String :=
  let d := "`" ++ colName col ++ "` " ++ columnTypeSqlite source_db col
  if col.is_nullable.getD true then d else d ++ " NOT NULL"

/-- `DataTypeMapper.get_create_table_sql_sqlite`.  `none` models the
exception raised when `columns` is empty. -/
def get_create_table_sql_sqlite (table_name : String) (columns : List Column)
    (primary_keys : List String) (source_db : String) : Option String :=
  if columns.isEmpty then none
  else
    let col_defs := columns.map (sqliteColDef source_db)
    let col_defs := if primary_keys.isEmpty then col_defs
      else col_defs ++ ["PRIMARY KEY (" ++
        String.intercalate ", " (primary_keys.map (fun pk => "`" ++ pk ++ "`")) ++ ")"]
    some ("CREATE TABLE `" ++ table_name ++ "` (\n  " ++
      String.intercalate ",\n  " col_defs ++ "\n)")

/-! ### Claims C6, C7, C9 -/

/-- Modelled from the spec's words (§4.2): the “most permissive text-like type”
of each relational target family, used to state what the spec claims unknown
types fall back to. -/
def specTextFallback (target : String) : String :=
  if target = "postgresql" then "text"
  else if target = "mysql" then "TEXT"
  else if target = "sqlite" then "TEXT"
  else ""

/-- Modelled from the spec's words (§4.2, §8): a “fixed-length string type” is a
`char(n)`/`varchar(n)` column type carrying an explicit length bound. -/
def isFixedLengthStringType (s : String) : Bool :=
  let l := (pyLower s).toList
  (listStartsWith l "char(".toList || listStartsWith l "varchar(".toList) &&
    listStartsWith l.reverse [')']

/-- Claim C6, evaluation at the failing input: a MySQL `tinyint(1)` column maps
to PostgreSQL `"smallint"`, not `"boolean"`, because the lookup key is the
paren-stripped base type, so the class's own `MYSQL_TO_POSTGRESQL` entry
`"tinyint(1)" ↦ "boolean"` (second conjunct) is unreachable.  The converse
direction of the claim does hold: PostgreSQL `boolean` maps to MySQL
`tinyint(1)` and to SQLite `INTEGER` (third and fourth conjuncts). -/
theorem tinyint1_maps_to_smallint_not_boolean :
    columnTypePostgresql "mysql" { type' := some "tinyint(1)" } = "smallint"
  ∧ dictGet MYSQL_TO_POSTGRESQL "tinyint(1)" "" = "boolean"
  ∧ columnTypeMysql "postgresql" { type' := some "boolean" } [] = "tinyint(1)"
  ∧ map_to_sqlite "boolean" "postgresql" = "INTEGER" := by
  refine ⟨by decide, by decide, by decide, by decide⟩

/-- Claim C7, counterexample: for the MySQL→PostgreSQL pair, a native type
absent from the mapping table (here `geometry`) is passed through unchanged
rather than falling back to the target family's permissive text type; likewise
PostgreSQL→MySQL (`tsvector`). -/
theorem unknown_type_passthrough_counterexample :
    columnTypePostgresql "mysql" { type' := some "geometry" } = "geometry"
  ∧ "geometry" ≠ specTextFallback "postgresql"
  ∧ columnTypeMysql "postgresql" { type' := some "tsvector" } [] = "tsvector"
  ∧ "tsvector" ≠ specTextFallback "mysql" := by
  refine ⟨by decide, by decide, by decide, by decide⟩

/-- Claim C7 as amended: an unrecognized native type never raises, and falls
back to the target family's permissive text type when the source is
sqlite or mongodb and for every source when the target is sqlite — but for
the MySQL→PostgreSQL and PostgreSQL→MySQL pairs the unknown source type string
is passed through unchanged. -/
theorem unknown_type_fallback_amended (t : String)
    (h₁ : MYSQL_TO_POSTGRESQL.find?
      (fun kv => kv.1 == splitParen (pyStrip (pyReplace (pyReplace (pyLower t) " unsigned" "") " zerofill" ""))) = none)
    (h₂ : POSTGRESQL_TO_MYSQL.find? (fun kv => kv.1 == splitParen (pyLower t)) = none)
    (h₃ : SQLITE_TYPE_MAP.find? (fun kv => kv.1 == splitParen (pyLower t)) = none)
    (h₄ : mongoToPg.find? (fun kv => kv.1 == pyLower t) = none)
    (h₅ : mongoToMysql.find? (fun kv => kv.1 == pyLower t) = none)
    (h₆ : sqliteToPg.find? (fun kv => kv.1 == pyLower t) = none)
    (h₇ : ∀ b, (sqliteToMysql b).find? (fun kv => kv.1 == pyLower t) = none) :
    (∀ src, map_to_sqlite t src = "TEXT")
  ∧ columnTypePostgresql "mysql" { type' := some t } = t
  ∧ columnTypeMysql "postgresql" { type' := some t } [] = t
  ∧ columnTypePostgresql "mongodb" { name := some "f", type' := some t } = "text"
  ∧ columnTypeMysql "mongodb" { name := some "f", type' := some t } [] = "TEXT"
  ∧ columnTypePostgresql "sqlite" { type' := some t } = "text"
  ∧ columnTypeMysql "sqlite" { type' := some t } [] = "TEXT" := by
  have hmem : t ∉ (["char", "varchar", "decimal", "numeric"] : List String) := by
    intro hm
    simp only [List.mem_cons, List.not_mem_nil, or_false] at hm
    rcases hm with rfl | rfl | rfl | rfl <;> exact absurd h₁ (by decide)
  have hv : t ≠ "varchar" := by
    rintro rfl; exact absurd h₂ (by decide)
  have hc : t ≠ "char" := by
    rintro rfl; exact absurd h₂ (by decide)
  refine ⟨fun src => ?_, ?_, ?_, ?_, ?_, ?_, ?_⟩
  · simp [map_to_sqlite, dictGet, h₃]
  · simp [columnTypePostgresql, get_column_data_type, dictGet, h₁, hmem]
  · simp [columnTypeMysql, get_column_data_type, dictGet, h₂, hv, hc]
  · simp [columnTypePostgresql, get_column_data_type, dictGet, h₄, colName]
  · simp [columnTypeMysql, get_column_data_type, dictGet, h₅, colName]
  · simp [columnTypePostgresql, get_column_data_type, dictGet, h₆]
  · simp [columnTypeMysql, get_column_data_type, dictGet, h₇ false, colName]

/-- Claim C9, counterexample: for the SQLite target the synthetic `_id` field of
a document-engine source maps to the unbounded `TEXT` type, which is not a
fixed-length string type (for the PostgreSQL and MySQL targets the claim's
`varchar(255)` behavior does hold, see the amended theorem). -/
theorem id_field_sqlite_text_counterexample :
    columnTypeSqlite "mongodb" { name := some "_id", type' := some "string" } = "TEXT"
  ∧ isFixedLengthStringType "TEXT" = false := by
  refine ⟨by decide, by decide⟩

/-- Claim C9 as amended: migrating from the document engine, the `_id` field
maps to a string column type that is independent of the type observed in the
sampled documents: the length-capped `varchar(255)`/`VARCHAR(255)` for the
PostgreSQL and MySQL targets, and the unbounded `TEXT` for the SQLite target. -/
theorem id_field_mapping_amended (observed : String) (pks : List String) :
    columnTypePostgresql "mongodb" { name := some "_id", type' := some observed } = "varchar(255)"
  ∧ columnTypeMysql "mongodb" { name := some "_id", type' := some observed } pks = "VARCHAR(255)"
  ∧ columnTypeSqlite "mongodb" { name := some "_id", type' := some observed } = "TEXT"
  ∧ isFixedLengthStringType "varchar(255)" = true
  ∧ isFixedLengthStringType "VARCHAR(255)" = true := by
  refine ⟨?_, ?_, ?_, by decide, by decide⟩
  · simp [columnTypePostgresql, colName]
  · simp [columnTypeMysql, colName]
  · simp [columnTypeSqlite, colName]

/-- Witness for `unknown_type_fallback_amended` at the concrete unknown type
`geometry`. -/
theorem unknown_type_fallback_amended_witness :
    columnTypePostgresql "mysql" { type' := some "geometry" } = "geometry"
  ∧ map_to_sqlite "geometry" "postgresql" = "TEXT" := by
  have h := unknown_type_fallback_amended "geometry" (by decide) (by decide) (by decide)
    (by decide) (by decide) (by decide) (by decide)
  exact ⟨h.2.1, h.1 "postgresql"⟩

/-! ## Schema inspector (`backend/app/utils/schema_inspector.py`)

`SchemaInspector.get_schema` dispatches on the database type and wraps every
branch in a catch-all `except Exception` that turns a raised exception into
`{"success": False, "error": "Schema inspection failed: ..."}`; an unsupported
type yields `{"success": False, "error": "Unsupported database type: ..."}`.
The database interaction is embedded as an oracle (`DbWorld`): the PostgreSQL
branch is modelled structurally down to the per-table catalog queries (claim C8
is about its per-table `SELECT COUNT(*)`, which the source runs with no
per-table exception handling); the mysql/mongodb/sqlite branches are modelled at
the granularity their contract is observed at by `get_schema` — the branch
either raises (an `Except.error` carrying the exception text) or returns its
success payload of inspected tables. -/

/-- One row of the `information_schema.columns` query in `_inspect_postgresql`. -/
structure PgColumnRow where
  column_name : String
  data_type : String
  character_maximum_length : Option Nat := none
  is_nullable : String := "YES"
  column_default : Option String := none
deriving Repr, DecidableEq

/-- One row of the foreign-key catalog query in `_inspect_postgresql`. -/
structure PgFkRow where
  column_name : String
  foreign_table_name : String
  foreign_column_name : String
deriving Repr, DecidableEq

/-- The catalog data `_inspect_postgresql` observes for one table, together
with the outcome of its `SELECT COUNT(*) FROM "table"` query (`Except.error`
models the query raising). -/
structure PgCatalogTable where
  table_name : String
  table_type : String := "BASE TABLE"
  columns : List PgColumnRow := []
  primary_keys : List String := []
  foreign_keys : List PgFkRow := []
  countResult : Except String Nat := .ok 0
deriving Repr

/-- A column dict of the uniform schema snapshot (key `type` is the Lean
keyword, hence `type'`). -/
structure InspectedColumn where
  name : String
  type' : String
  length : Option Nat := none
  nullable : Bool := true
  default : Option String := none
deriving Repr, DecidableEq

/-- A foreign-key dict of the uniform schema snapshot (the source stores the
column under both `column` and `column_name`). -/
structure InspectedFk where
  column : String
  column_name : String
  references_table : String
  references_column : String
deriving Repr, DecidableEq

/-- A table dict of the uniform schema snapshot. -/
structure InspectedTable where
  name : String
  type' : String := "BASE TABLE"
  columns : List InspectedColumn := []
  primary_keys : List String := []
  foreign_keys : List InspectedFk := []
  row_count : Nat := 0
deriving Repr, DecidableEq

/-- The dict returned by `SchemaInspector.get_schema`. -/
structure SchemaResult where
  success : Bool
  database_name : Option String := none
  database_type : Option String := none
  tables : List InspectedTable := []
  error : Option String := none
deriving Repr, DecidableEq

/-- The per-database oracle: what each engine-specific inspection would observe
or raise.  See the section comment for the modelling granularity. -/
structure DbWorld where
  postgresql : Except String (List PgCatalogTable) := .ok []
  mysql : Except String (List InspectedTable) := .ok []
  mongodb : Except String (List InspectedTable) := .ok []
  sqlite : Except String (List InspectedTable) := .ok []

/-- The per-table body of `_inspect_postgresql`'s loop: builds the table dict;
the row-count query runs last and unprotected, so its failure raises out of the
whole inspection. -/
def inspectPostgresqlTable (t : PgCatalogTable) : Except String InspectedTable :=
  match t.countResult with
  | .error e => .error e
  | .ok row_count =>
    .ok { name := t.table_name
          type' := t.table_type
          columns := t.columns.map (fun c =>
            { name := c.column_name, type' := c.data_type,
              length := c.character_maximum_length,
              nullable := c.is_nullable == "YES", default := c.column_default })
          primary_keys := t.primary_keys
          foreign_keys := t.foreign_keys.map (fun fk =>
            { column := fk.column_name, column_name := fk.column_name,
              references_table := fk.foreign_table_name,
              references_column := fk.foreign_column_name })
          row_count := row_count }

/-- The table loop of `_inspect_postgresql`: tables are processed in catalog
order; the first raising count query aborts the rest. -/
def inspectTables : List PgCatalogTable → Except String (List InspectedTable)
  | [] => .ok []
  | t :: ts =>
    match inspectPostgresqlTable t with
    | .error e => .error e
    | .ok r =>
      match inspectTables ts with
      | .error e => .error e
      | .ok rs => .ok (r :: rs)

/-- `SchemaInspector._inspect_postgresql`. -/
def inspect_postgresql (database : String) (catalog : List PgCatalogTable) :
    Except String SchemaResult :=
  match inspectTables catalog with
  | .error e => .error e
  | .ok tables =>
    .ok { success := true, database_name := some database,
          database_type := some "postgresql", tables := tables }

/-- The common shape of the non-postgresql branches of `get_schema`: the branch
either raised (mapped to a failure dict by the catch-all) or returned its
success dict. -/
def wrapInspection (database db_type_tag : String)
    (r : Except String (List InspectedTable)) : SchemaResult :=
  match r with
  | .ok tables =>
    { success := true, database_name := some database,
      database_type := some db_type_tag, tables := tables }
  | .error e => { success := false, error := some ("Schema inspection failed: " ++ e) }

/-- `SchemaInspector.get_schema`. -/
def get_schema (db_type database : String) (world : DbWorld) : SchemaResult :=
  if db_type = "postgresql" then
    match world.postgresql with
    | .error e => { success := false, error := some ("Schema inspection failed: " ++ e) }
    | .ok catalog =>
      match inspect_postgresql database catalog with
      | .ok r => r
      | .error e => { success := false, error := some ("Schema inspection failed: " ++ e) }
  else if db_type = "mysql" then wrapInspection database "mysql" world.mysql
  else if db_type = "mongodb" then wrapInspection database "mongodb" world.mongodb
  else if db_type = "sqlite" then wrapInspection database "sqlite" world.sqlite
  else { success := false, error := some ("Unsupported database type: " ++ db_type) }

/-- A catalog table whose count query raises. -/
def countFailTable : PgCatalogTable :=
  { table_name := "users", countResult := .error "permission denied for relation users" }

/-- A world in which the only table's count query raises. -/
def countFailWorld : DbWorld := { postgresql := .ok [countFailTable] }

/-- Claim C8, counterexample: a failing per-table `COUNT(*)` makes the whole
PostgreSQL inspection fail — `get_schema` reports `success = false` instead of
returning a successful snapshot with a best-effort row count. -/
theorem count_failure_fails_inspection_counterexample :
    (get_schema "postgresql" "appdb" countFailWorld).success = false
  ∧ (get_schema "postgresql" "appdb" countFailWorld).error =
      some "Schema inspection failed: permission denied for relation users" := by
  refine ⟨by decide, by decide⟩

/-- If some table's count query raises, the whole table loop raises. -/
theorem inspectTables_error (catalog : List PgCatalogTable)
    (h : ∃ t ∈ catalog, ∃ e, t.countResult = .error e) :
    ∃ e', inspectTables catalog = .error e' := by
  induction catalog with
  | nil => simp at h
  | cons t ts ih =>
    cases hc : t.countResult with
    | error e =>
      exact ⟨e, by simp [inspectTables, inspectPostgresqlTable, hc]⟩
    | ok n =>
      obtain ⟨u, hu, e, he⟩ := h
      rcases List.mem_cons.mp hu with rfl | hmem
      · rw [hc] at he; exact absurd he (by simp)
      · obtain ⟨e', he'⟩ := ih ⟨u, hmem, e, he⟩
        refine ⟨e', ?_⟩
        simp [inspectTables, inspectPostgresqlTable, hc, he']

/-- Claim C8 as amended: a failure of a per-table `COUNT(*)` query during
PostgreSQL inspection aborts the whole inspection — `get_schema` returns
`success = false` with a `Schema inspection failed: ...` error (row counts are
not best-effort), though no exception propagates to the caller. -/
theorem count_failure_aborts_inspection (database : String) (world : DbWorld)
    (catalog : List PgCatalogTable) (hw : world.postgresql = .ok catalog)
    (hfail : ∃ t ∈ catalog, ∃ e, t.countResult = .error e) :
    (get_schema "postgresql" database world).success = false
  ∧ ∃ e, (get_schema "postgresql" database world).error =
      some ("Schema inspection failed: " ++ e) := by
  obtain ⟨e', he'⟩ := inspectTables_error catalog hfail
  have : get_schema "postgresql" database world =
      { success := false, error := some ("Schema inspection failed: " ++ e') } := by
    simp [get_schema, hw, inspect_postgresql, he']
  rw [this]
  exact ⟨rfl, e', rfl⟩

/-- Witness for `count_failure_aborts_inspection` at `countFailWorld`. -/
theorem count_failure_aborts_inspection_witness :
    (get_schema "postgresql" "appdb" countFailWorld).success = false :=
  (count_failure_aborts_inspection "appdb" countFailWorld [countFailTable] rfl
    ⟨countFailTable, by simp, "permission denied for relation users", rfl⟩).1

/-- Claim C10: `get_schema` always returns a result dict (never propagates an
exception — the embedding is a total function because of the source's
catch-all); whenever `success` is false the dict carries an error string, and
an unsupported database type yields exactly the `Unsupported database type`
error. -/
theorem get_schema_error_contract (db_type database : String) (world : DbWorld) :
    ((get_schema db_type database world).success = false →
      ∃ e, (get_schema db_type database world).error = some e)
  ∧ (db_type ≠ "postgresql" → db_type ≠ "mysql" → db_type ≠ "mongodb" →
      db_type ≠ "sqlite" →
      (get_schema db_type database world).success = false ∧
      (get_schema db_type database world).error =
        some ("Unsupported database type: " ++ db_type)) := by
  unfold get_schema
  by_cases h1 : db_type = "postgresql"
  · subst h1
    simp only [if_pos rfl]
    cases hw : world.postgresql with
    | error e => simp only [hw]; exact ⟨fun _ => ⟨_, rfl⟩, fun hne _ _ _ => absurd rfl hne⟩
    | ok catalog =>
      cases hm : inspect_postgresql database catalog with
      | ok r =>
        have hr : r.success = true := by
          cases hmm : inspectTables catalog with
          | ok tables =>
            simp [inspect_postgresql, hmm] at hm
            rw [← hm]
          | error e => simp [inspect_postgresql, hmm] at hm
        simp only [hw, hm]
        exact ⟨fun hfalse => absurd (hr.symm.trans hfalse) (by decide),
               fun hne _ _ _ => absurd rfl hne⟩
      | error e =>
        simp only [hw, hm]
        exact ⟨fun _ => ⟨_, rfl⟩, fun hne _ _ _ => absurd rfl hne⟩
  · simp only [if_neg h1]
    by_cases h2 : db_type = "mysql"
    · simp only [h2, if_pos rfl]
      cases hw : world.mysql with
      | error e => exact ⟨fun _ => ⟨_, rfl⟩, fun _ hne _ _ => absurd rfl hne⟩
      | ok tables => exact ⟨fun hfalse => by simp [wrapInspection] at hfalse,
                            fun _ hne _ _ => absurd rfl hne⟩
    · simp only [if_neg h2]
      by_cases h3 : db_type = "mongodb"
      · simp only [h3, if_pos rfl]
        cases hw : world.mongodb with
        | error e => exact ⟨fun _ => ⟨_, rfl⟩, fun _ _ hne _ => absurd rfl hne⟩
        | ok tables => exact ⟨fun hfalse => by simp [wrapInspection] at hfalse,
                              fun _ _ hne _ => absurd rfl hne⟩
      · simp only [if_neg h3]
        by_cases h4 : db_type = "sqlite"
        · simp only [h4, if_pos rfl]
          cases hw : world.sqlite with
          | error e => exact ⟨fun _ => ⟨_, rfl⟩, fun _ _ _ hne => absurd rfl hne⟩
          | ok tables => exact ⟨fun hfalse => by simp [wrapInspection] at hfalse,
                                fun _ _ _ hne => absurd rfl hne⟩
        · simp only [if_neg h4]
          exact ⟨fun _ => ⟨_, rfl⟩, fun _ _ _ _ => ⟨by trivial, by trivial⟩⟩

/-- Witness for `get_schema_error_contract` at the unsupported type `oracle`. -/
theorem get_schema_error_contract_witness :
    (get_schema "oracle" "db" {}).success = false
  ∧ (get_schema "oracle" "db" {}).error = some "Unsupported database type: oracle" := by
  exact (get_schema_error_contract "oracle" "db" {}).2
    (by decide) (by decide) (by decide) (by decide)

/-! ## Migration job and cancellation
(`backend/app/api/routes/migrations.py` `run_migration_job` / `update_progress`,
`backend/app/utils/migration_engine.py` `MigrationEngine.migrate`)

The cross-engine path of `migrate` invokes the progress callback at fixed
milestones (10 fetching schema, 20 analyzing dependencies, 30 migrating
schema), creates every resolved table in the schema phase, then invokes the
callback once before each table's data transfer and once at 100.  The
orchestrator's `update_progress` polls the shared `CANCEL_REQUESTS` flag and
raises `Exception("Migration cancelled by user")` when it is set.  `migrate`
catches every exception, performs a best-effort rollback that drops every table
in `tables_to_migrate` (completed ones included), and returns
`{"success": False, "error": str(e)}`; `run_migration_job` then stores
`MigrationStatus.FAILED` with that error text and leaves `migrated_rows`
untouched.  The callback invocations are numbered 0, 1, 2, then 3+idx per
table, then a final one; the cancellation flag is modelled as the set of call
indices at which `CANCEL_REQUESTS.get(migration_id)` is truthy. -/

/-- `app.models.migration.MigrationStatus`. -/
inductive MigrationStatus
  | pending | in_progress | completed | failed | rolled_back | cancelled | paused
deriving DecidableEq, Repr

/-- A source table together with its row count, as seen by the data phase. -/
structure EngineTable where
  name : String
  rows : Nat
deriving Repr, DecidableEq

/-- The dict returned by `MigrationEngine.migrate`. -/
structure EngineResult where
  success : Bool
  error : Option String := none
  total_tables : Nat := 0
  total_rows : Nat := 0
deriving Repr, DecidableEq

/-- The body of `update_progress` as observed by the engine: raises
`Migration cancelled by user` when the cancel flag is set at this call. -/
def update_progress (cancelAt : Nat → Bool) (callIdx : Nat) : Except String Unit :=
  if cancelAt callIdx then .error "Migration cancelled by user" else .ok ()

/-- The data-transfer loop of `migrate`: one progress poll before each table,
accumulating migrated rows. -/
def dataPhase (cancelAt : Nat → Bool) : Nat → List EngineTable → Nat → Except String Nat
  | _, [], rows => .ok rows
  | callIdx, t :: ts, rows =>
    match update_progress cancelAt callIdx with
    | .error e => .error e
    | .ok _ => dataPhase cancelAt (callIdx + 1) ts (rows + t.rows)

/-- `MigrationEngine.migrate` (cross path), for an already-resolved table list:
returns the result dict together with the tables existing at the target
afterwards.  On any exception the engine's handler rolls back every table of
`tables_to_migrate` — the target ends empty — and reports
`success = False` with the exception text. -/
def engineMigrate (tables : List EngineTable) (cancelAt : Nat → Bool) :
    EngineResult × List String :=
  let run : Except String Nat :=
    match update_progress cancelAt 0 with
    | .error e => .error e
    | .ok _ =>
      match update_progress cancelAt 1 with
      | .error e => .error e
      | .ok _ =>
        match update_progress cancelAt 2 with
        | .error e => .error e
        | .ok _ =>
          match dataPhase cancelAt 3 tables 0 with
          | .error e => .error e
          | .ok rows =>
            match update_progress cancelAt (3 + tables.length) with
            | .error e => .error e
            | .ok _ => .ok rows
  match run with
  | .ok rows =>
    ({ success := true, total_tables := tables.length, total_rows := rows },
     tables.map (fun t => t.name))
  | .error e => ({ success := false, error := some e }, [])

/-- The fields of the `Migration` row that `run_migration_job` writes at the
end of a run. -/
structure JobRecord where
  status : MigrationStatus
  error_message : Option String := none
  migrated_rows : Option Nat := none
  completed_tables : Option Nat := none
deriving Repr, DecidableEq

/-- The tail of `run_migration_job`: runs the engine, then stores `COMPLETED`
with the statistics on success and `FAILED` with the error text otherwise
(`migrated_rows` is only written on success). -/
def run_migration_job (tables : List EngineTable) (cancelAt : Nat → Bool) :
    JobRecord × List String :=
  let (result, target) := engineMigrate tables cancelAt
  if result.success then
    ({ status := .completed, migrated_rows := some result.total_rows,
       completed_tables := some result.total_tables }, target)
  else
    ({ status := .failed, error_message := result.error }, target)

/-- The three-table run of the claim's scenario. -/
def threeTables : List EngineTable := [⟨"t1", 5⟩, ⟨"t2", 7⟩, ⟨"t3", 9⟩]

/-- The cancel flag becomes set once the first table's data transfer has
completed: polls 0–3 see it clear, poll 4 (before table 2) sees it set. -/
def cancelAfterFirstTable : Nat → Bool := fun i => 4 ≤ i

/-- Claim C2, evaluation at the failing input: cancelling a three-table
migration after the first table completes ends the job in status `failed`
(not the distinct `cancelled` status) with error text
`Migration cancelled by user`; the engine's rollback drops every created
table (the completed first table included), and `migrated_rows` is left
unset rather than reflecting the completed table's rows.  A sanity conjunct
shows the uncancelled run completes with all rows. -/
theorem cancellation_midrun_reports_failed :
    (run_migration_job threeTables cancelAfterFirstTable).1.status = .failed
  ∧ (run_migration_job threeTables cancelAfterFirstTable).1.status ≠ .cancelled
  ∧ (run_migration_job threeTables cancelAfterFirstTable).1.error_message =
      some "Migration cancelled by user"
  ∧ (run_migration_job threeTables cancelAfterFirstTable).1.migrated_rows = none
  ∧ (run_migration_job threeTables cancelAfterFirstTable).2 = []
  ∧ (run_migration_job threeTables (fun _ => false)).1.status = .completed
  ∧ (run_migration_job threeTables (fun _ => false)).1.migrated_rows = some 21 := by
  refine ⟨by decide, by decide, by decide, by decide, by decide, by decide, by decide⟩

/-! ## Value converter
(`MigrationEngine._convert_data_for_target`, sqlite → mysql/postgresql branch,
and `MigrationEngine._convert_value_for_mysql`, bytes arm)

Bytes are embedded as `List Nat` (each element < 256 where it matters).
CPython's `uuid.UUID(bytes=b)` validates nothing but the length: every 16-byte
value is accepted and `str(...)` renders the lowercase hyphenated hex form, so
the embedded `uuidFromBytes` succeeds exactly on length-16 inputs.
Python's `str.isprintable` is exact on the ASCII range (0x20–0x7e printable);
for codepoints ≥ 0x80 it consults the Unicode category table, which is embedded
as an oracle parameter `uniPrintable` (no claim depends on it).  The printable
ratio `sum(printable)/max(len,1) > 0.8` is embedded as the exact comparison
`5 * printable > 4 * len` (the source compares IEEE doubles; the claims never
exercise this branch). -/

/-- Lowercase hex digit of a value < 16. -/
def hexDigitChar (n : Nat) : Char :=
  if n < 10 then Char.ofNat (48 + n) else Char.ofNat (87 + n)

/-- Two lowercase hex digits of a byte. -/
def byteHexChars (b : Nat) : List Char := [hexDigitChar (b / 16 % 16), hexDigitChar (b % 16)]

/-- Hex rendering of a byte string. -/
def bytesHexChars (bs : List Nat) : List Char := (bs.map byteHexChars).flatten

/-- `str(uuid.UUID(bytes=b))` for a 16-byte `b`: 8-4-4-4-12 lowercase hex. -/
def uuidStrFromBytes (bs : List Nat) : String :=
  let h := bytesHexChars bs
  ⟨h.take 8 ++ '-' :: ((h.drop 8).take 4) ++ '-' :: ((h.drop 12).take 4) ++
    '-' :: ((h.drop 16).take 4) ++ '-' :: h.drop 20⟩

/-- The `uuid.UUID(bytes=byte_data)` attempt: succeeds iff the value is exactly
16 bytes (CPython performs no version or variant validation on the bytes). -/
def uuidFromBytes (bs : List Nat) : Option String :=
  if bs.length = 16 then some (uuidStrFromBytes bs) else none

/-- `byte_data.decode('ascii')`: succeeds iff every byte is < 0x80. -/
def asciiDecode (bs : List Nat) : Option String :=
  if bs.all (fun b => b < 128) then some ⟨bs.map Char.ofNat⟩ else none

/-- Python's per-character `str.isprintable`; see the section comment. -/
def pyPrintableChar (uniPrintable : Nat → Bool) (c : Char) : Bool :=
  if c.toNat < 128 then decide (32 ≤ c.toNat ∧ c.toNat ≤ 126) else uniPrintable c.toNat

/-- Python `s.isprintable()` (true on the empty string, as in Python). -/
def pyIsprintable (uniPrintable : Nat → Bool) (s : String) : Bool :=
  s.toList.all (pyPrintableChar uniPrintable)

/-- The base64 alphabet. -/
def b64Char (n : Nat) : Char :=
  "ABCDEFGHIJKLMNOPQRSTUVWXYZabcdefghijklmnopqrstuvwxyz0123456789+/".toList.getD n '='

/-- `base64.b64encode`, three bytes to four sextets with `=` padding. -/
def b64encodeChars : List Nat → List Char
  | [] => []
  | [a] => [b64Char (a / 4), b64Char (a % 4 * 16), '=', '=']
  | [a, b] => [b64Char (a / 4), b64Char (a % 4 * 16 + b / 16), b64Char (b % 16 * 4), '=']
  | a :: b :: c :: rest =>
    b64Char (a / 4) :: b64Char (a % 4 * 16 + b / 16) ::
      b64Char (b % 16 * 4 + c / 64) :: b64Char (c % 64) :: b64encodeChars rest

/-- `base64.b64encode(byte_data).decode('ascii')`. -/
def b64encode (bs : List Nat) : String := ⟨b64encodeChars bs⟩

/-- UTF-8 continuation byte. -/
def isCont (b : Nat) : Bool := 128 ≤ b ∧ b ≤ 191

/-- `byte_data.decode('utf-8')` with Python's strict error handling: rejects
overlong encodings, surrogates and codepoints beyond U+10FFFF. -/
def utf8Decode : List Nat → Option (List Char)
  | [] => some []
  | b :: rest =>
    if b < 128 then (utf8Decode rest).map (fun cs => Char.ofNat b :: cs)
    else if 194 ≤ b ∧ b ≤ 223 then
      match rest with
      | b2 :: rest2 =>
        if isCont b2 then
          (utf8Decode rest2).map (fun cs => Char.ofNat ((b - 192) * 64 + (b2 - 128)) :: cs)
        else none
      | [] => none
    else if 224 ≤ b ∧ b ≤ 239 then
      match rest with
      | b2 :: b3 :: rest3 =>
        let lo2 := if b = 224 then 160 else 128
        let hi2 := if b = 237 then 159 else 191
        if (lo2 ≤ b2 ∧ b2 ≤ hi2) ∧ isCont b3 then
          (utf8Decode rest3).map (fun cs =>
            Char.ofNat ((b - 224) * 4096 + (b2 - 128) * 64 + (b3 - 128)) :: cs)
        else none
      | _ => none
    else if 240 ≤ b ∧ b ≤ 244 then
      match rest with
      | b2 :: b3 :: b4 :: rest4 =>
        let lo2 := if b = 240 then 144 else 128
        let hi2 := if b = 244 then 143 else 191
        if (lo2 ≤ b2 ∧ b2 ≤ hi2) ∧ isCont b3 ∧ isCont b4 then
          (utf8Decode rest4).map (fun cs =>
            Char.ofNat ((b - 240) * 262144 + (b2 - 128) * 4096 +
              (b3 - 128) * 64 + (b4 - 128)) :: cs)
        else none
      | _ => none
    else none

/-- The bytes arm of `_convert_data_for_target` for the sqlite →
mysql/postgresql pair: a 16-byte value is tried as UUID bytes, then as
printable ASCII, then base64; other lengths try printable ASCII (a successful
but unprintable ASCII decode goes straight to base64), then UTF-8 with
printable ratio above 0.8, then base64. -/
def convertBytesSqliteToRelational (uniPrintable : Nat → Bool) (bs : List Nat) : String :=
  if bs.length = 16 then
    match uuidFromBytes bs with
    | some s => s
    | none =>
      match asciiDecode bs with
      | some d => if pyIsprintable uniPrintable d then d else b64encode bs
      | none => b64encode bs
  else
    match asciiDecode bs with
    | some d => if pyIsprintable uniPrintable d then d else b64encode bs
    | none =>
      match utf8Decode bs with
      | some cs =>
        if 5 * (cs.filter (pyPrintableChar uniPrintable)).length > 4 * cs.length then ⟨cs⟩
        else b64encode bs
      | none => b64encode bs

/-- The bytes arm of `_convert_value_for_mysql`: the 16-byte UUID attempt falls
through on failure (`pass`), a printable ASCII decode returns early (an
unprintable one falls through, unlike the sqlite-path converter), then the
UTF-8 ratio test, else base64. -/
def convert_value_for_mysql_bytes (uniPrintable : Nat → Bool) (bs : List Nat) : String :=
  match (if bs.length = 16 then uuidFromBytes bs else none) with
  | some s => s
  | none =>
    let tryAscii :=
      match asciiDecode bs with
      | some d => if pyIsprintable uniPrintable d then some d else none
      | none => none
    match tryAscii with
    | some d => d
    | none =>
      match utf8Decode bs with
      | some cs =>
        if 5 * (cs.filter (pyPrintableChar uniPrintable)).length > 4 * cs.length then ⟨cs⟩
        else b64encode bs
      | none => b64encode bs

/-- Claim C1: for every 16-byte binary value converted for a relational
target, if the bytes form a valid UUID both converters return the UUID's
canonical hyphenated text form; a 16-byte value that is not valid UUID bytes
but decodes as printable ASCII returns that ASCII text, never its base64
encoding.  In CPython `uuid.UUID(bytes=b)` accepts every 16-byte value, which
`uuidFromBytes` mirrors, so the first case always applies (third conjunct) and
the second case of the claim is vacuous for 16-byte values (its premise
`uuidFromBytes bs = none` is refutable, and the conjunct is proved from it). -/
theorem binary16_uuid_conversion (uniPrintable : Nat → Bool) (bs : List Nat)
    (h16 : bs.length = 16) :
    (∀ u, uuidFromBytes bs = some u →
      convert_value_for_mysql_bytes uniPrintable bs = u ∧
      convertBytesSqliteToRelational uniPrintable bs = u)
  ∧ (uuidFromBytes bs = none →
      ∀ d, asciiDecode bs = some d → pyIsprintable uniPrintable d = true →
        convert_value_for_mysql_bytes uniPrintable bs = d ∧
        convert_value_for_mysql_bytes uniPrintable bs ≠ b64encode bs ∧
        convertBytesSqliteToRelational uniPrintable bs = d)
  ∧ convert_value_for_mysql_bytes uniPrintable bs = uuidStrFromBytes bs
  ∧ convertBytesSqliteToRelational uniPrintable bs = uuidStrFromBytes bs := by
  have hu : uuidFromBytes bs = some (uuidStrFromBytes bs) := by
    simp [uuidFromBytes, h16]
  refine ⟨?_, ?_, ?_, ?_⟩
  · intro u h
    rw [hu] at h
    obtain rfl : uuidStrFromBytes bs = u := Option.some.inj h
    constructor
    · simp [convert_value_for_mysql_bytes, h16, hu]
    · simp [convertBytesSqliteToRelational, h16, hu]
  · intro hnone
    rw [hu] at hnone
    exact absurd hnone (by simp)
  · simp [convert_value_for_mysql_bytes, h16, hu]
  · simp [convertBytesSqliteToRelational, h16, hu]

/-- Witness for `binary16_uuid_conversion` at the all-zero 16-byte value. -/
theorem binary16_uuid_conversion_witness :
    convert_value_for_mysql_bytes (fun _ => false) (List.replicate 16 0) =
      "00000000-0000-0000-0000-000000000000"
  ∧ convertBytesSqliteToRelational (fun _ => false) (List.replicate 16 0) =
      "00000000-0000-0000-0000-000000000000" := by
  have h := binary16_uuid_conversion (fun _ => false) (List.replicate 16 0) (by decide)
  have hs : uuidStrFromBytes (List.replicate 16 0) =
      "00000000-0000-0000-0000-000000000000" := by decide
  exact ⟨h.2.2.1.trans hs, h.2.2.2.trans hs⟩

/-! ## Dependency resolver (`MigrationEngine._resolve_dependencies`)

A table as read by the resolver: it accesses `t["name"]` and
`t.get("foreign_keys", [])`, and of each foreign-key dict only
`fk.get("references_table")` (whose absence or `None`/empty value is falsy).
Python sets are embedded as lists with membership semantics; a Python set's
iteration order is unspecified, so the embedding fixes one (insertion order,
newest first) — every claim proved below holds for any order, and the
counterexamples do not depend on it.  The two unbounded recursions of the
source (`add_dependencies`, `visit`) terminate because each recursive call
inserts a fresh table name into a set bounded by the schema; the embedding
makes that measure explicit as fuel, which the surrounding calls always supply
in excess (fuel is one more than a bound the proofs show is never exceeded). -/

structure ForeignKey where
  column : String
  references_table : Option String
  references_column : String
deriving Repr, DecidableEq

/-- A table as consumed by `_resolve_dependencies`. -/
structure Table where
  name : String
  foreign_keys : List ForeignKey := []
deriving Repr, DecidableEq

/-- The `SQLITE_INTERNAL_TABLES` constant. -/
def SQLITE_INTERNAL_TABLES : List String :=
  ["sqlite_sequence", "sqlite_stat1", "sqlite_stat2", "sqlite_stat3",
   "sqlite_stat4", "sqlite_master"]

/-- The `MONGO_SYSTEM_COLLECTIONS` constant. -/
def MONGO_SYSTEM_COLLECTIONS : List String :=
  ["system.users", "system.version", "system.indexes", "system.profile"]

/-- `filtered_tables`: internal tables are removed; for a mongodb source the
system collections are removed as well. -/
def filteredTables (source_db_type : String) (all_tables : List Table) : List Table :=
  let ft := all_tables.filter (fun t => decide (t.name ∉ SQLITE_INTERNAL_TABLES))
  if source_db_type = "mongodb" then
    ft.filter (fun t => decide (t.name ∉ MONGO_SYSTEM_COLLECTIONS))
  else ft

/-- The dependency entry built for one table: referenced tables, excluding a
falsy reference, a self-reference, and references to internal tables; for a
mongodb source the dependency map is empty. -/
def depsOfTable (source_db_type : String) (t : Table) : List String :=
  if source_db_type = "mongodb" then []
  else t.foreign_keys.filterMap (fun fk =>
    match fk.references_table with
    | none => none
    | some r =>
      if r ≠ "" ∧ r ≠ t.name ∧ r ∉ SQLITE_INTERNAL_TABLES then some r else none)

/-- `table_map` lookup.  The Python dict comprehension lets a later duplicate
name overwrite an earlier one, hence the search from the rear. -/
def lookupTable (tables : List Table) (n : String) : Option Table :=
  tables.reverse.find? (fun t => t.name == n)

/-- The `dependencies` dict: defined exactly for the names of filtered tables. -/
def depsMap (source_db_type : String) (filtered : List Table) (n : String) :
    Option (List String) :=
  (lookupTable filtered n).map (depsOfTable source_db_type)

/-- `add_dependencies`: depth-first closure of `tables_to_include` under
dependencies, adding only dependencies that resolve in `table_map`. -/
def add_dependencies (dm : String → Option (List String)) (tableNames : List String) :
    Nat → List String → String → List String
  | 0, acc, _ => acc
  | fuel + 1, acc, n =>
    match dm n with
    | none => acc
    | some ds =>
      ds.foldl (fun acc' dep =>
        if dep ∈ acc' then acc'
        else if dep ∈ tableNames then
          add_dependencies dm tableNames fuel (dep :: acc') dep
        else acc') acc

/-- The dependencies of `n` that lie inside `tables_to_include` — the children
the `visit` traversal recurses into. -/
def depsIncl (dm : String → Option (List String)) (incl : List String) (n : String) :
    List String :=
  match dm n with
  | some ds => ds.filter (fun d => decide (d ∈ incl))
  | none => []

/-- `visit`: depth-first post-order append into `ordered`, guarded by
`visited`; state is `(visited, ordered)`. -/
def visit (dm : String → Option (List String)) (incl : List String) :
    Nat → List String × List String → String → List String × List String
  | 0, st, _ => st
  | fuel + 1, (vis, ord), n =>
    if n ∈ vis then (vis, ord)
    else
      let st1 := (depsIncl dm incl n).foldl
        (fun st d => visit dm incl fuel st d) (n :: vis, ord)
      (st1.1, st1.2 ++ [n])

/-- `tables_to_include`'s initial value: the selection minus internal tables. -/
def resolverInit (selected_tables : List String) : List String :=
  selected_tables.filter (fun s => decide (s ∉ SQLITE_INTERNAL_TABLES))

/-- The `for table_name in list(tables_to_include): add_dependencies(...)` loop
(it iterates a snapshot of the initial set): the final `tables_to_include`. -/
def inclOf (dm : String → Option (List String)) (V init : List String) : List String :=
  init.foldl (fun acc s => add_dependencies dm V (V.length + 1) acc s) init

/-- The `for table_name in tables_to_include: visit(table_name)` loop: the
final `ordered` list. -/
def orderedOf (dm : String → Option (List String)) (incl : List String) : List String :=
  (incl.foldl (fun st n => visit dm incl (incl.length + 1) st n) ([], [])).2

/-- `MigrationEngine._resolve_dependencies`. -/
def resolve_dependencies (source_db_type : String) (all_tables : List Table)
    (selected_tables : List String) : List Table :=
  let filtered := filteredTables source_db_type all_tables
  let dm := depsMap source_db_type filtered
  let V := filtered.map (fun t => t.name)
  (orderedOf dm (inclOf dm V (resolverInit selected_tables))).filterMap
    (lookupTable filtered)

/-! ### Termination measure and closure invariants -/

/-- The number of names of `V` not yet in `acc` — the measure that bounds both
recursions of the resolver. -/
def unvis (V acc : List String) : Nat := (V.toFinset \ acc.toFinset).card

theorem unvis_mono {V acc acc' : List String} (h : ∀ x ∈ acc, x ∈ acc') :
    unvis V acc' ≤ unvis V acc := by
  apply Finset.card_le_card
  intro x hx
  rw [Finset.mem_sdiff] at hx ⊢
  exact ⟨hx.1, fun hm => hx.2 (List.mem_toFinset.mpr (h x (List.mem_toFinset.mp hm)))⟩

theorem unvis_strict {V acc : List String} {d : String} (hV : d ∈ V) (hd : d ∉ acc) :
    unvis V (d :: acc) < unvis V acc := by
  have hsub : V.toFinset \ (d :: acc).toFinset ⊆ V.toFinset \ acc.toFinset := by
    intro x hx
    rw [Finset.mem_sdiff] at hx ⊢
    refine ⟨hx.1, fun hm => hx.2 ?_⟩
    rw [List.toFinset_cons]
    exact Finset.mem_insert_of_mem hm
  have hdin : d ∈ V.toFinset \ acc.toFinset :=
    Finset.mem_sdiff.mpr ⟨List.mem_toFinset.mpr hV, fun hm => hd (List.mem_toFinset.mp hm)⟩
  have hdout : d ∉ V.toFinset \ (d :: acc).toFinset := by
    intro hm
    rw [Finset.mem_sdiff, List.toFinset_cons] at hm
    exact hm.2 (Finset.mem_insert_self _ _)
  refine Nat.lt_of_le_of_ne (Finset.card_le_card hsub) (fun heq => ?_)
  have := Finset.eq_of_subset_of_card_le hsub (Nat.le_of_eq heq.symm)
  rw [this] at hdout
  exact hdout hdin

theorem unvis_lt_succ_length (V acc : List String) : unvis V acc < V.length + 1 := by
  have h1 : (V.toFinset \ acc.toFinset).card ≤ V.toFinset.card :=
    Finset.card_le_card (Finset.sdiff_subset)
  have h2 : V.toFinset.card ≤ V.length := List.toFinset_card_le V
  unfold unvis
  omega

/-- `X` contains every dependency of `n` that resolves in `table_map` — the
closure property `add_dependencies` establishes. -/
def depsDone (dm : String → Option (List String)) (V X : List String) (n : String) : Prop :=
  ∀ ds, dm n = some ds → ∀ d ∈ ds, d ∈ V → d ∈ X

theorem depsDone_mono {dm : String → Option (List String)} {V X Y : List String} {n : String}
    (hXY : ∀ x ∈ X, x ∈ Y) : depsDone dm V X n → depsDone dm V Y n :=
  fun h ds hds d hd hV => hXY _ (h ds hds d hd hV)

/-- The fold step of `add_dependencies`, named for the proofs. -/
def addDepStep (dm : String → Option (List String)) (V : List String) (f : Nat)
    (acc' : List String) (dep : String) : List String :=
  if dep ∈ acc' then acc'
  else if dep ∈ V then add_dependencies dm V f (dep :: acc') dep
  else acc'

theorem add_dependencies_succ (dm : String → Option (List String)) (V : List String)
    (f : Nat) (acc : List String) (n : String) :
    add_dependencies dm V (f + 1) acc n =
      match dm n with
      | none => acc
      | some ds => ds.foldl (addDepStep dm V f) acc := rfl

/-- Invariant propagation along the dependency fold inside `add_dependencies`,
given the specification at the next lower fuel. -/
theorem addDeps_fold_spec (dm : String → Option (List String)) (V : List String) (f : Nat)
    (ih : ∀ acc n, unvis V acc < f →
      (∀ x ∈ acc, x ∈ add_dependencies dm V f acc n) ∧
      (∀ x ∈ add_dependencies dm V f acc n, x ∈ acc ∨ x ∈ V) ∧
      depsDone dm V (add_dependencies dm V f acc n) n ∧
      (∀ x ∈ add_dependencies dm V f acc n, x ∉ acc →
        depsDone dm V (add_dependencies dm V f acc n) x))
    (acc : List String) (hacc : unvis V acc < f + 1) :
    ∀ (l : List String) (acc0 : List String),
      (∀ x ∈ acc, x ∈ acc0) →
      unvis V acc0 ≤ unvis V acc →
      (∀ x ∈ acc0, x ∈ acc ∨ x ∈ V) →
      (∀ x ∈ acc0, x ∉ acc → depsDone dm V acc0 x) →
      (∀ x ∈ acc0, x ∈ l.foldl (addDepStep dm V f) acc0) ∧
      (∀ x ∈ l.foldl (addDepStep dm V f) acc0, x ∈ acc ∨ x ∈ V) ∧
      unvis V (l.foldl (addDepStep dm V f) acc0) ≤ unvis V acc ∧
      (∀ d ∈ l, d ∈ V → d ∈ l.foldl (addDepStep dm V f) acc0) ∧
      (∀ x ∈ l.foldl (addDepStep dm V f) acc0, x ∉ acc →
        depsDone dm V (l.foldl (addDepStep dm V f) acc0) x) := by
  intro l
  induction l with
  | nil =>
    intro acc0 h1 h2 h3 h4
    exact ⟨fun x hx => hx, h3, h2, by simp, h4⟩
  | cons d l' ihl =>
    intro acc0 h1 h2 h3 h4
    simp only [List.foldl_cons]
    by_cases hd : d ∈ acc0
    · have hstep : addDepStep dm V f acc0 d = acc0 := by simp [addDepStep, hd]
      rw [hstep]
      obtain ⟨c1, c2, c3, c4, c5⟩ := ihl acc0 h1 h2 h3 h4
      refine ⟨c1, c2, c3, ?_, c5⟩
      intro d' hd' hV'
      rcases List.mem_cons.mp hd' with rfl | h'
      · exact c1 d' hd
      · exact c4 d' h' hV'
    · by_cases hV : d ∈ V
      · have hstep : addDepStep dm V f acc0 d = add_dependencies dm V f (d :: acc0) d := by
          simp [addDepStep, hd, hV]
        rw [hstep]
        have hstrict := @unvis_strict V acc0 d hV hd
        have hfuel' : unvis V (d :: acc0) < f := by omega
        obtain ⟨m1, m2, m3, m4⟩ := ih (d :: acc0) d hfuel'
        have isub : ∀ x ∈ acc0, x ∈ add_dependencies dm V f (d :: acc0) d :=
          fun x hx => m1 x (List.mem_cons_of_mem _ hx)
        have i1 : ∀ x ∈ acc, x ∈ add_dependencies dm V f (d :: acc0) d :=
          fun x hx => isub x (h1 x hx)
        have i2 : unvis V (add_dependencies dm V f (d :: acc0) d) ≤ unvis V acc := by
          have := @unvis_mono V _ _ m1
          omega
        have i3 : ∀ x ∈ add_dependencies dm V f (d :: acc0) d, x ∈ acc ∨ x ∈ V := by
          intro x hx
          rcases m2 x hx with h' | h'
          · rcases List.mem_cons.mp h' with rfl | h''
            · exact Or.inr hV
            · exact h3 x h''
          · exact Or.inr h'
        have i4 : ∀ x ∈ add_dependencies dm V f (d :: acc0) d, x ∉ acc →
            depsDone dm V (add_dependencies dm V f (d :: acc0) d) x := by
          intro x hx hnx
          by_cases hx0 : x ∈ (d :: acc0)
          · rcases List.mem_cons.mp hx0 with rfl | h''
            · exact m3
            · exact depsDone_mono isub (h4 x h'' hnx)
          · exact m4 x hx hx0
        obtain ⟨c1, c2, c3, c4, c5⟩ := ihl (add_dependencies dm V f (d :: acc0) d) i1 i2 i3 i4
        refine ⟨fun x hx => c1 x (isub x hx), c2, c3, ?_, c5⟩
        intro d' hd' hV'
        rcases List.mem_cons.mp hd' with rfl | h'
        · exact c1 d' (m1 d' (List.mem_cons_self _ _))
        · exact c4 d' h' hV'
      · have hstep : addDepStep dm V f acc0 d = acc0 := by simp [addDepStep, hd, hV]
        rw [hstep]
        obtain ⟨c1, c2, c3, c4, c5⟩ := ihl acc0 h1 h2 h3 h4
        refine ⟨c1, c2, c3, ?_, c5⟩
        intro d' hd' hV'
        rcases List.mem_cons.mp hd' with rfl | h'
        · exact absurd hV' hV
        · exact c4 d' h' hV'

/-- Specification of `add_dependencies` with sufficient fuel: the accumulator
only grows, new entries come from `table_map`, the dependencies of `n` that
resolve in `table_map` end up included, and every newly added name has its own
resolvable dependencies included. -/
theorem add_dependencies_spec (dm : String → Option (List String)) (V : List String) :
    ∀ fuel acc n, unvis V acc < fuel →
      (∀ x ∈ acc, x ∈ add_dependencies dm V fuel acc n) ∧
      (∀ x ∈ add_dependencies dm V fuel acc n, x ∈ acc ∨ x ∈ V) ∧
      depsDone dm V (add_dependencies dm V fuel acc n) n ∧
      (∀ x ∈ add_dependencies dm V fuel acc n, x ∉ acc →
        depsDone dm V (add_dependencies dm V fuel acc n) x) := by
  intro fuel
  induction fuel with
  | zero => intro acc n h; omega
  | succ f ih =>
    intro acc n hfuel
    cases hdm : dm n with
    | none =>
      rw [add_dependencies_succ, hdm]
      exact ⟨fun x hx => hx, fun x hx => Or.inl hx,
             fun ds hds => by rw [hdm] at hds; exact absurd hds (by simp),
             fun x hx hnx => absurd hx hnx⟩
    | some ds =>
      rw [add_dependencies_succ, hdm]
      obtain ⟨c1, c2, c3, c4, c5⟩ := addDeps_fold_spec dm V f ih acc hfuel ds acc
        (fun x hx => hx) (Nat.le_refl _) (fun x hx => Or.inl hx)
        (fun x hx hnx => absurd hx hnx)
      refine ⟨c1, c2, ?_, c5⟩
      intro ds' hds'
      rw [hdm] at hds'
      obtain rfl : ds = ds' := Option.some.inj hds'
      exact fun d hd hV => c4 d hd hV

/-- Specification of the final `tables_to_include`: it contains the selection
it started from, every member is a selected or a resolvable name, and it is
closed under resolvable dependencies. -/
theorem inclOf_spec (dm : String → Option (List String)) (V init : List String) :
    (∀ x ∈ init, x ∈ inclOf dm V init) ∧
    (∀ x ∈ inclOf dm V init, x ∈ init ∨ x ∈ V) ∧
    (∀ x ∈ inclOf dm V init, depsDone dm V (inclOf dm V init) x) := by
  have main : ∀ (l acc : List String),
      (∀ x ∈ acc, x ∈ init ∨ x ∈ V) →
      (∀ x ∈ acc, depsDone dm V acc x ∨ x ∈ l) →
      (∀ x ∈ acc, x ∈ l.foldl (fun a s => add_dependencies dm V (V.length + 1) a s) acc) ∧
      (∀ x ∈ l.foldl (fun a s => add_dependencies dm V (V.length + 1) a s) acc,
        x ∈ init ∨ x ∈ V) ∧
      (∀ x ∈ l.foldl (fun a s => add_dependencies dm V (V.length + 1) a s) acc,
        depsDone dm V (l.foldl (fun a s => add_dependencies dm V (V.length + 1) a s) acc) x) := by
    intro l
    induction l with
    | nil =>
      intro acc hb hdone
      refine ⟨fun x hx => hx, hb, ?_⟩
      intro x hx
      rcases hdone x hx with h' | h'
      · exact h'
      · exact absurd h' (List.not_mem_nil x)
    | cons s l' ihl =>
      intro acc hb hdone
      simp only [List.foldl_cons]
      obtain ⟨m1, m2, m3, m4⟩ :=
        add_dependencies_spec dm V (V.length + 1) acc s (unvis_lt_succ_length V acc)
      have hb' : ∀ x ∈ add_dependencies dm V (V.length + 1) acc s, x ∈ init ∨ x ∈ V := by
        intro x hx
        rcases m2 x hx with h' | h'
        · exact hb x h'
        · exact Or.inr h'
      have hdone' : ∀ x ∈ add_dependencies dm V (V.length + 1) acc s,
          depsDone dm V (add_dependencies dm V (V.length + 1) acc s) x ∨ x ∈ l' := by
        intro x hx
        by_cases hxa : x ∈ acc
        · rcases hdone x hxa with h' | h'
          · exact Or.inl (depsDone_mono m1 h')
          · rcases List.mem_cons.mp h' with rfl | h''
            · exact Or.inl m3
            · exact Or.inr h''
        · exact Or.inl (m4 x hx hxa)
      obtain ⟨c1, c2, c3⟩ := ihl (add_dependencies dm V (V.length + 1) acc s) hb' hdone'
      exact ⟨fun x hx => c1 x (m1 x hx), c2, c3⟩
  obtain ⟨c1, c2, c3⟩ := main init init (fun x hx => Or.inl hx) (fun x hx => Or.inr hx)
  exact ⟨c1, c2, c3⟩

/-! ### Invariants of the `visit` traversal -/

theorem depsIncl_subset_incl (dm : String → Option (List String)) (incl : List String)
    (n : String) : ∀ d ∈ depsIncl dm incl n, d ∈ incl := by
  intro d
  unfold depsIncl
  cases dm n with
  | none => intro hd; exact absurd hd (List.not_mem_nil d)
  | some ds =>
    intro hd
    have hd' : d ∈ ds.filter (fun d => decide (d ∈ incl)) := hd
    simp only [List.mem_filter, decide_eq_true_eq] at hd'
    exact hd'.2

theorem visit_succ (dm : String → Option (List String)) (incl : List String) (f : Nat)
    (vis ord : List String) (n : String) :
    visit dm incl (f + 1) (vis, ord) n =
      if n ∈ vis then (vis, ord)
      else
        ((((depsIncl dm incl n).foldl (fun st d => visit dm incl f st d) (n :: vis, ord))).1,
         (((depsIncl dm incl n).foldl (fun st d => visit dm incl f st d) (n :: vis, ord))).2
           ++ [n]) := rfl

/-- The visited set only grows, `ordered` is only appended to with names that
were unvisited, and every newly visited name is in `tables_to_include` or is
the visited name itself. -/
theorem visit_mono (dm : String → Option (List String)) (incl : List String) :
    ∀ fuel st n,
      (∀ x ∈ st.1, x ∈ (visit dm incl fuel st n).1) ∧
      (∃ Δ, (visit dm incl fuel st n).2 = st.2 ++ Δ ∧ ∀ x ∈ Δ, x ∉ st.1) ∧
      (∀ x ∈ (visit dm incl fuel st n).1, x ∈ st.1 ∨ x ∈ incl ∨ x = n) := by
  intro fuel
  induction fuel with
  | zero =>
    intro st n
    exact ⟨fun x hx => hx, ⟨[], by simp [visit], by simp⟩, fun x hx => Or.inl hx⟩
  | succ f ih =>
    intro st n
    obtain ⟨vis, ord⟩ := st
    by_cases hn : n ∈ vis
    · rw [visit_succ, if_pos hn]
      exact ⟨fun x hx => hx, ⟨[], by simp, by simp⟩, fun x hx => Or.inl hx⟩
    · rw [visit_succ, if_neg hn]
      have fold : ∀ (l : List String) (st0 : List String × List String),
          (∀ x ∈ st0.1, x ∈ (l.foldl (fun st d => visit dm incl f st d) st0).1) ∧
          (∃ Δ, (l.foldl (fun st d => visit dm incl f st d) st0).2 = st0.2 ++ Δ ∧
            ∀ x ∈ Δ, x ∉ st0.1) ∧
          (∀ x ∈ (l.foldl (fun st d => visit dm incl f st d) st0).1,
            x ∈ st0.1 ∨ x ∈ incl ∨ x ∈ l) := by
        intro l
        induction l with
        | nil =>
          intro st0
          exact ⟨fun x hx => hx, ⟨[], by simp, by simp⟩, fun x hx => Or.inl hx⟩
        | cons d l' ihl =>
          intro st0
          simp only [List.foldl_cons]
          obtain ⟨a1, ⟨Δ1, hΔ1, hΔ1f⟩, a3⟩ := ih st0 d
          obtain ⟨b1, ⟨Δ2, hΔ2, hΔ2f⟩, b3⟩ := ihl (visit dm incl f st0 d)
          refine ⟨fun x hx => b1 x (a1 x hx),
            ⟨Δ1 ++ Δ2, by rw [hΔ2, hΔ1, List.append_assoc], ?_⟩, ?_⟩
          · intro x hx
            rcases List.mem_append.mp hx with h' | h'
            · exact hΔ1f x h'
            · exact fun hmem => hΔ2f x h' (a1 x hmem)
          · intro x hx
            rcases b3 x hx with h' | h' | h'
            · rcases a3 x h' with h'' | h'' | h''
              · exact Or.inl h''
              · exact Or.inr (Or.inl h'')
              · exact Or.inr (Or.inr (h'' ▸ List.mem_cons_self _ _))
            · exact Or.inr (Or.inl h')
            · exact Or.inr (Or.inr (List.mem_cons_of_mem _ h'))
      obtain ⟨f1, ⟨Δ, hΔ, hΔf⟩, f3⟩ := fold (depsIncl dm incl n) (n :: vis, ord)
      refine ⟨fun x hx => f1 x (List.mem_cons_of_mem _ hx),
        ⟨Δ ++ [n], by rw [hΔ, List.append_assoc], ?_⟩, ?_⟩
      · intro x hx
        rcases List.mem_append.mp hx with h' | h'
        · exact fun hmem => hΔf x h' (List.mem_cons_of_mem _ hmem)
        · rw [List.mem_singleton.mp h']
          exact hn
      · intro x hx
        rcases f3 x hx with h' | h' | h'
        · rcases List.mem_cons.mp h' with rfl | h''
          · exact Or.inr (Or.inr rfl)
          · exact Or.inl h''
        · exact Or.inr (Or.inl h')
        · exact Or.inr (Or.inl (depsIncl_subset_incl dm incl n x h'))

/-- `visit_mono` lifted to the folds over child or root lists. -/
theorem visitFold_mono (dm : String → Option (List String)) (incl : List String)
    (fuel : Nat) :
    ∀ (l : List String) (st0 : List String × List String),
      (∀ x ∈ st0.1, x ∈ (l.foldl (fun st d => visit dm incl fuel st d) st0).1) ∧
      (∃ Δ, (l.foldl (fun st d => visit dm incl fuel st d) st0).2 = st0.2 ++ Δ ∧
        ∀ x ∈ Δ, x ∉ st0.1) ∧
      (∀ x ∈ (l.foldl (fun st d => visit dm incl fuel st d) st0).1,
        x ∈ st0.1 ∨ x ∈ incl ∨ x ∈ l) := by
  intro l
  induction l with
  | nil =>
    intro st0
    exact ⟨fun x hx => hx, ⟨[], by simp, by simp⟩, fun x hx => Or.inl hx⟩
  | cons d l' ihl =>
    intro st0
    simp only [List.foldl_cons]
    obtain ⟨a1, ⟨Δ1, hΔ1, hΔ1f⟩, a3⟩ := visit_mono dm incl fuel st0 d
    obtain ⟨b1, ⟨Δ2, hΔ2, hΔ2f⟩, b3⟩ := ihl (visit dm incl fuel st0 d)
    refine ⟨fun x hx => b1 x (a1 x hx),
      ⟨Δ1 ++ Δ2, by rw [hΔ2, hΔ1, List.append_assoc], ?_⟩, ?_⟩
    · intro x hx
      rcases List.mem_append.mp hx with h' | h'
      · exact hΔ1f x h'
      · exact fun hmem => hΔ2f x h' (a1 x hmem)
    · intro x hx
      rcases b3 x hx with h' | h' | h'
      · rcases a3 x h' with h'' | h'' | h''
        · exact Or.inl h''
        · exact Or.inr (Or.inl h'')
        · exact Or.inr (Or.inr (h'' ▸ List.mem_cons_self _ _))
      · exact Or.inr (Or.inl h')
      · exact Or.inr (Or.inr (List.mem_cons_of_mem _ h'))

/-- A visited name is in the visited set afterwards. -/
theorem visit_visits (dm : String → Option (List String)) (incl : List String)
    (fuel : Nat) (st : List String × List String) (n : String) (hf : 0 < fuel) :
    n ∈ (visit dm incl fuel st n).1 := by
  obtain ⟨vis, ord⟩ := st
  obtain ⟨f, rfl⟩ := Nat.exists_eq_succ_of_ne_zero (Nat.pos_iff_ne_zero.mp hf)
  by_cases hn : n ∈ vis
  · rw [visit_succ, if_pos hn]
    exact hn
  · rw [visit_succ, if_neg hn]
    exact (visitFold_mono dm incl f (depsIncl dm incl n) (n :: vis, ord)).1 n
      (List.mem_cons_self _ _)

/-- An unvisited name gets appended to `ordered` by its visit. -/
theorem visit_appends (dm : String → Option (List String)) (incl : List String)
    (fuel : Nat) (st : List String × List String) (n : String) (hf : 0 < fuel)
    (hn : n ∉ st.1) : n ∈ (visit dm incl fuel st n).2 := by
  obtain ⟨vis, ord⟩ := st
  obtain ⟨f, rfl⟩ := Nat.exists_eq_succ_of_ne_zero (Nat.pos_iff_ne_zero.mp hf)
  rw [visit_succ, if_neg hn]
  exact List.mem_append_right _ (List.mem_singleton_self n)

/-- Every visit preserves `ordered ⊆ visited` and the `Nodup`ness of
`ordered`, and never turns a visited-but-unordered ("gray", on the recursion
stack) name into an ordered one: a name that ends gray was gray before. -/
theorem visit_nodup (dm : String → Option (List String)) (incl : List String) :
    ∀ fuel st n, (∀ x ∈ st.2, x ∈ st.1) → st.2.Nodup →
      (∀ x ∈ (visit dm incl fuel st n).2, x ∈ (visit dm incl fuel st n).1) ∧
      (visit dm incl fuel st n).2.Nodup ∧
      (∀ x ∈ (visit dm incl fuel st n).1, x ∉ (visit dm incl fuel st n).2 →
        x ∈ st.1 ∧ x ∉ st.2) := by
  intro fuel
  induction fuel with
  | zero =>
    intro st n h1 h2
    exact ⟨h1, h2, fun x hx hnx => ⟨hx, hnx⟩⟩
  | succ f ih =>
    intro st n h1 h2
    obtain ⟨vis, ord⟩ := st
    by_cases hn : n ∈ vis
    · rw [visit_succ, if_pos hn]
      exact ⟨h1, h2, fun x hx hnx => ⟨hx, hnx⟩⟩
    · rw [visit_succ, if_neg hn]
      have fold : ∀ (l : List String) (st0 : List String × List String),
          (∀ x ∈ st0.2, x ∈ st0.1) → st0.2.Nodup →
          (∀ x ∈ (l.foldl (fun st d => visit dm incl f st d) st0).2,
            x ∈ (l.foldl (fun st d => visit dm incl f st d) st0).1) ∧
          (l.foldl (fun st d => visit dm incl f st d) st0).2.Nodup ∧
          (∀ x ∈ (l.foldl (fun st d => visit dm incl f st d) st0).1,
            x ∉ (l.foldl (fun st d => visit dm incl f st d) st0).2 →
            x ∈ st0.1 ∧ x ∉ st0.2) := by
        intro l
        induction l with
        | nil => intro st0 g1 g2; exact ⟨g1, g2, fun x hx hnx => ⟨hx, hnx⟩⟩
        | cons d l' ihl =>
          intro st0 g1 g2
          simp only [List.foldl_cons]
          obtain ⟨a1, a2, a3⟩ := ih st0 d g1 g2
          obtain ⟨b1, b2, b3⟩ := ihl (visit dm incl f st0 d) a1 a2
          exact ⟨b1, b2, fun x hx hnx =>
            have h' := b3 x hx hnx
            a3 x h'.1 h'.2⟩
      obtain ⟨g1, g2, g3⟩ := fold (depsIncl dm incl n) (n :: vis, ord)
        (fun x hx => List.mem_cons_of_mem _ (h1 x hx)) h2
      obtain ⟨m1, ⟨Δ, hΔ, hΔf⟩, m3⟩ := visitFold_mono dm incl f (depsIncl dm incl n) (n :: vis, ord)
      have hnord : n ∉ ((depsIncl dm incl n).foldl (fun st d => visit dm incl f st d)
          (n :: vis, ord)).2 := by
        rw [hΔ]
        intro hmem
        rcases List.mem_append.mp hmem with h' | h'
        · exact hn (h1 n h')
        · exact hΔf n h' (List.mem_cons_self _ _)
      refine ⟨?_, ?_, ?_⟩
      · intro x hx
        rcases List.mem_append.mp hx with h' | h'
        · exact g1 x h'
        · rw [List.mem_singleton.mp h']
          exact m1 n (List.mem_cons_self _ _)
      · rw [List.nodup_append]
        exact ⟨g2, List.nodup_singleton n, by
          intro x hx hx'
          rw [List.mem_singleton.mp hx'] at hx
          exact hnord hx⟩
      · intro x hx hnx
        have hx2 : x ∉ ((depsIncl dm incl n).foldl (fun st d => visit dm incl f st d)
            (n :: vis, ord)).2 := fun h' => hnx (List.mem_append_left _ h')
        have hxn : x ≠ n := by
          rintro rfl
          exact hnx (List.mem_append_right _ (List.mem_singleton_self _))
        obtain ⟨h'1, h'2⟩ := g3 x hx hx2
        rcases List.mem_cons.mp h'1 with rfl | h''
        · exact absurd rfl hxn
        · exact ⟨h'', h'2⟩

/-- The topological invariant: every entry of the list has its
in-`tables_to_include` dependencies strictly earlier in the list. -/
def topoOk (dm : String → Option (List String)) (incl : List String)
    (ord : List String) : Prop :=
  ∀ i x, ord.get? i = some x → ∀ d ∈ depsIncl dm incl x, d ∈ ord.take i

/-- A rank function witnessing acyclicity of the followed dependency edges. -/
def rankOk (dm : String → Option (List String)) (incl : List String)
    (rank : String → Nat) : Prop :=
  ∀ n d, d ∈ depsIncl dm incl n → rank d < rank n

theorem topoOk_append (dm : String → Option (List String)) (incl : List String)
    (ord : List String) (n : String) (h : topoOk dm incl ord)
    (hdeps : ∀ d ∈ depsIncl dm incl n, d ∈ ord) :
    topoOk dm incl (ord ++ [n]) := by
  intro i x hget d hd
  rcases Nat.lt_trichotomy i ord.length with hlt | heq | hgt
  · rw [List.get?_append hlt] at hget
    have hmem := h i x hget d hd
    rw [List.take_append_eq_append_take]
    exact List.mem_append_left _ hmem
  · subst heq
    rw [List.get?_append_right (Nat.le_refl _)] at hget
    simp only [Nat.sub_self, List.get?] at hget
    obtain rfl : n = x := Option.some.inj hget
    rw [List.take_append_eq_append_take, Nat.sub_self, List.take_length]
    exact List.mem_append_left _ (hdeps d hd)
  · exfalso
    have : (ord ++ [n]).length ≤ i := by
      rw [List.length_append, List.length_singleton]
      omega
    rw [List.get?_eq_none.mpr this] at hget
    exact Option.noConfusion hget

/-- Depth-first post-order is topologically valid when the followed edges
admit a rank function (acyclicity): provided every gray (in-progress) name
outranks `n`, visiting `n` preserves the topological invariant of `ordered`. -/
theorem visit_topo (dm : String → Option (List String)) (incl : List String)
    (rank : String → Nat) (hrank : rankOk dm incl rank) :
    ∀ fuel vis ord n,
      unvis incl vis < fuel → n ∈ incl →
      (∀ x ∈ ord, x ∈ vis) → ord.Nodup →
      (∀ g ∈ vis, g ∉ ord → rank n < rank g) →
      topoOk dm incl ord →
      topoOk dm incl (visit dm incl fuel (vis, ord) n).2 := by
  intro fuel
  induction fuel with
  | zero => intro vis ord n h; omega
  | succ f ih =>
    intro vis ord n hfuel hincl hov hnd hgray htopo
    by_cases hn : n ∈ vis
    · rw [visit_succ, if_pos hn]
      exact htopo
    · rw [visit_succ, if_neg hn]
      have hstrict := @unvis_strict incl vis n hincl hn
      have fold : ∀ (l : List String), (∀ d ∈ l, d ∈ depsIncl dm incl n) →
          ∀ (st0 : List String × List String),
          (∀ x ∈ st0.2, x ∈ st0.1) → st0.2.Nodup →
          (∀ x ∈ st0.1, x ∉ st0.2 → (x ∈ n :: vis ∧ x ∉ ord)) →
          unvis incl st0.1 ≤ unvis incl (n :: vis) →
          topoOk dm incl st0.2 →
          (∀ x ∈ (l.foldl (fun st d => visit dm incl f st d) st0).2,
            x ∈ (l.foldl (fun st d => visit dm incl f st d) st0).1) ∧
          (l.foldl (fun st d => visit dm incl f st d) st0).2.Nodup ∧
          (∀ x ∈ (l.foldl (fun st d => visit dm incl f st d) st0).1,
            x ∉ (l.foldl (fun st d => visit dm incl f st d) st0).2 →
            (x ∈ n :: vis ∧ x ∉ ord)) ∧
          unvis incl (l.foldl (fun st d => visit dm incl f st d) st0).1 ≤
            unvis incl (n :: vis) ∧
          topoOk dm incl (l.foldl (fun st d => visit dm incl f st d) st0).2 ∧
          (∀ d ∈ l, d ∈ (l.foldl (fun st d => visit dm incl f st d) st0).1) := by
        intro l
        induction l with
        | nil =>
          intro _ st0 g1 g2 g3 g4 g5
          exact ⟨g1, g2, g3, g4, g5, by simp⟩
        | cons d l' ihl =>
          intro hl st0 g1 g2 g3 g4 g5
          simp only [List.foldl_cons]
          have hd_incl : d ∈ incl :=
            depsIncl_subset_incl dm incl n d (hl d (List.mem_cons_self _ _))
          have hedge : rank d < rank n := hrank n d (hl d (List.mem_cons_self _ _))
          have hf_pos : 0 < f := by omega
          have hfuel_child : unvis incl st0.1 < f := by omega
          have hgray_child : ∀ g ∈ st0.1, g ∉ st0.2 → rank d < rank g := by
            intro g hg hg'
            obtain ⟨hg1, hg2⟩ := g3 g hg hg'
            rcases List.mem_cons.mp hg1 with rfl | hg3
            · exact hedge
            · exact Nat.lt_trans hedge (hgray g hg3 hg2)
          have htopo_child : topoOk dm incl (visit dm incl f st0 d).2 := by
            have := ih st0.1 st0.2 d hfuel_child hd_incl g1 g2 hgray_child g5
            exact this
          obtain ⟨a1, a2, a3⟩ := visit_nodup dm incl f st0 d g1 g2
          obtain ⟨mm1, ⟨Δa, hΔa, _⟩, _⟩ := visit_mono dm incl f st0 d
          have g3' : ∀ x ∈ (visit dm incl f st0 d).1, x ∉ (visit dm incl f st0 d).2 →
              (x ∈ n :: vis ∧ x ∉ ord) := by
            intro x hx hnx
            obtain ⟨h'1, h'2⟩ := a3 x hx hnx
            exact g3 x h'1 h'2
          have g4' : unvis incl (visit dm incl f st0 d).1 ≤ unvis incl (n :: vis) :=
            Nat.le_trans (unvis_mono mm1) g4
          obtain ⟨c1, c2, c3, c4, c5, c6⟩ := ihl (fun d' hd' => hl d' (List.mem_cons_of_mem _ hd'))
            (visit dm incl f st0 d) a1 a2 g3' g4' htopo_child
          refine ⟨c1, c2, c3, c4, c5, ?_⟩
          intro d' hd'
          rcases List.mem_cons.mp hd' with rfl | h'
          · have hdv : d' ∈ (visit dm incl f st0 d').1 := visit_visits dm incl f st0 d' hf_pos
            obtain ⟨mf1, _, _⟩ := visitFold_mono dm incl f l' (visit dm incl f st0 d')
            exact mf1 d' hdv
          · exact c6 d' h'
      obtain ⟨r1, r2, r3, r4, r5, r6⟩ := fold (depsIncl dm incl n) (fun d hd => hd)
        (n :: vis, ord) (fun x hx => List.mem_cons_of_mem _ (hov x hx)) hnd
        (fun x hx hnx => ⟨hx, hnx⟩) (Nat.le_refl _) htopo
      apply topoOk_append dm incl _ n r5
      intro d hd
      have hdr : d ∈ ((depsIncl dm incl n).foldl (fun st d => visit dm incl f st d)
          (n :: vis, ord)).1 := r6 d hd
      by_cases hd2 : d ∈ ((depsIncl dm incl n).foldl (fun st d => visit dm incl f st d)
          (n :: vis, ord)).2
      · exact hd2
      · exfalso
        obtain ⟨hg1, hg2⟩ := r3 d hdr hd2
        have hedge : rank d < rank n := hrank n d hd
        rcases List.mem_cons.mp hg1 with rfl | hg3
        · exact Nat.lt_irrefl _ hedge
        · exact Nat.lt_irrefl _ (Nat.lt_trans hedge (hgray d hg3 hg2))

/-- Specification of the final `ordered` list: its members are exactly the
members of `tables_to_include`, and it has no duplicates. -/
theorem orderedOf_spec (dm : String → Option (List String)) (incl : List String) :
    (∀ x ∈ orderedOf dm incl, x ∈ incl) ∧
    (orderedOf dm incl).Nodup ∧
    (∀ x ∈ incl, x ∈ orderedOf dm incl) := by
  have main : ∀ (l : List String), (∀ x ∈ l, x ∈ incl) →
      ∀ (st0 : List String × List String),
      (∀ x ∈ st0.2, x ∈ st0.1) → st0.2.Nodup → (∀ x ∈ st0.1, x ∈ st0.2) →
      (∀ x ∈ st0.1, x ∈ incl) →
      (∀ x ∈ (l.foldl (fun st n => visit dm incl (incl.length + 1) st n) st0).2,
        x ∈ (l.foldl (fun st n => visit dm incl (incl.length + 1) st n) st0).1) ∧
      (l.foldl (fun st n => visit dm incl (incl.length + 1) st n) st0).2.Nodup ∧
      (∀ x ∈ (l.foldl (fun st n => visit dm incl (incl.length + 1) st n) st0).1,
        x ∈ (l.foldl (fun st n => visit dm incl (incl.length + 1) st n) st0).2) ∧
      (∀ x ∈ (l.foldl (fun st n => visit dm incl (incl.length + 1) st n) st0).1,
        x ∈ incl) ∧
      (∀ x ∈ l, x ∈ (l.foldl (fun st n => visit dm incl (incl.length + 1) st n) st0).2) := by
    intro l
    induction l with
    | nil =>
      intro _ st0 g1 g2 g3 g4
      exact ⟨g1, g2, g3, g4, by simp⟩
    | cons m l' ihl =>
      intro hl st0 g1 g2 g3 g4
      simp only [List.foldl_cons]
      have hm_incl : m ∈ incl := hl m (List.mem_cons_self _ _)
      obtain ⟨a1, a2, a3⟩ := visit_nodup dm incl (incl.length + 1) st0 m g1 g2
      obtain ⟨mm1, ⟨Δa, hΔa, _⟩, mm3⟩ := visit_mono dm incl (incl.length + 1) st0 m
      have g3' : ∀ x ∈ (visit dm incl (incl.length + 1) st0 m).1,
          x ∈ (visit dm incl (incl.length + 1) st0 m).2 := by
        intro x hx
        by_contra hnx
        obtain ⟨h'1, h'2⟩ := a3 x hx hnx
        exact h'2 (g3 x h'1)
      have g4' : ∀ x ∈ (visit dm incl (incl.length + 1) st0 m).1, x ∈ incl := by
        intro x hx
        rcases mm3 x hx with h' | h' | h'
        · exact g4 x h'
        · exact h'
        · exact h' ▸ hm_incl
      obtain ⟨c1, c2, c3, c4, c5⟩ := ihl (fun x hx => hl x (List.mem_cons_of_mem _ hx))
        (visit dm incl (incl.length + 1) st0 m) a1 a2 g3' g4'
      refine ⟨c1, c2, c3, c4, ?_⟩
      intro x hx
      rcases List.mem_cons.mp hx with rfl | h'
      · have hx2 : x ∈ (visit dm incl (incl.length + 1) st0 x).2 := by
          by_cases hxv : x ∈ st0.1
          · have := g3 x hxv
            rw [hΔa]
            exact List.mem_append_left _ this
          · exact visit_appends dm incl (incl.length + 1) st0 x (Nat.succ_pos _) hxv
        obtain ⟨_, ⟨Δb, hΔb, _⟩, _⟩ := visitFold_mono dm incl (incl.length + 1) l'
          (visit dm incl (incl.length + 1) st0 x)
        rw [hΔb]
        exact List.mem_append_left _ hx2
      · exact c5 x h'
  obtain ⟨c1, c2, c3, c4, c5⟩ := main incl (fun x hx => hx) ([], [])
    (by simp) List.nodup_nil (by simp) (by simp)
  exact ⟨fun x hx => c4 x (c1 x hx), c2, c5⟩

/-- With a rank function on the followed edges, the final `ordered` list
satisfies the topological invariant. -/
theorem orderedOf_topo (dm : String → Option (List String)) (incl : List String)
    (rank : String → Nat) (hrank : rankOk dm incl rank) :
    topoOk dm incl (orderedOf dm incl) := by
  have main : ∀ (l : List String), (∀ x ∈ l, x ∈ incl) →
      ∀ (st0 : List String × List String),
      (∀ x ∈ st0.2, x ∈ st0.1) → st0.2.Nodup → (∀ x ∈ st0.1, x ∈ st0.2) →
      topoOk dm incl st0.2 →
      (∀ x ∈ (l.foldl (fun st n => visit dm incl (incl.length + 1) st n) st0).2,
        x ∈ (l.foldl (fun st n => visit dm incl (incl.length + 1) st n) st0).1) ∧
      (l.foldl (fun st n => visit dm incl (incl.length + 1) st n) st0).2.Nodup ∧
      (∀ x ∈ (l.foldl (fun st n => visit dm incl (incl.length + 1) st n) st0).1,
        x ∈ (l.foldl (fun st n => visit dm incl (incl.length + 1) st n) st0).2) ∧
      topoOk dm incl (l.foldl (fun st n => visit dm incl (incl.length + 1) st n) st0).2 := by
    intro l
    induction l with
    | nil =>
      intro _ st0 g1 g2 g3 g5
      exact ⟨g1, g2, g3, g5⟩
    | cons m l' ihl =>
      intro hl st0 g1 g2 g3 g5
      simp only [List.foldl_cons]
      have hm_incl : m ∈ incl := hl m (List.mem_cons_self _ _)
      obtain ⟨a1, a2, a3⟩ := visit_nodup dm incl (incl.length + 1) st0 m g1 g2
      have htopo' : topoOk dm incl (visit dm incl (incl.length + 1) st0 m).2 := by
        have := visit_topo dm incl rank hrank (incl.length + 1) st0.1 st0.2 m
          (unvis_lt_succ_length incl st0.1) hm_incl g1 g2
          (fun g hg hg' => absurd (g3 g hg) hg') g5
        exact this
      have g3' : ∀ x ∈ (visit dm incl (incl.length + 1) st0 m).1,
          x ∈ (visit dm incl (incl.length + 1) st0 m).2 := by
        intro x hx
        by_contra hnx
        obtain ⟨h'1, h'2⟩ := a3 x hx hnx
        exact h'2 (g3 x h'1)
      exact ihl (fun x hx => hl x (List.mem_cons_of_mem _ hx))
        (visit dm incl (incl.length + 1) st0 m) a1 a2 g3' htopo'
  exact (main incl (fun x hx => hx) ([], []) (by simp) List.nodup_nil (by simp)
    (fun i x hget => by simp at hget)).2.2.2

/-! ### Assembly: from the traversal invariants to `_resolve_dependencies` -/

theorem lookupTable_some {tables : List Table} {n : String} {t : Table}
    (h : lookupTable tables n = some t) : t.name = n ∧ t ∈ tables := by
  unfold lookupTable at h
  have h1 := List.find?_some h
  have h2 := List.mem_of_find?_eq_some h
  exact ⟨by simpa using h1, List.mem_reverse.mp h2⟩

theorem lookupTable_isSome {tables : List Table} {n : String}
    (h : ∃ t ∈ tables, t.name = n) : ∃ t, lookupTable tables n = some t := by
  obtain ⟨t, ht, hn⟩ := h
  unfold lookupTable
  cases hfind : tables.reverse.find? (fun t => t.name == n) with
  | some u => exact ⟨u, rfl⟩
  | none =>
    exfalso
    have := List.find?_eq_none.mp hfind t (List.mem_reverse.mpr ht)
    simp [hn] at this

theorem mem_filteredTables {src : String} {all : List Table} {t : Table}
    (h : t ∈ filteredTables src all) : t ∈ all ∧ t.name ∉ SQLITE_INTERNAL_TABLES := by
  simp only [filteredTables] at h
  by_cases hs : src = "mongodb"
  · rw [if_pos hs] at h
    have h1 := List.mem_filter.mp h
    have h2 := List.mem_filter.mp h1.1
    exact ⟨h2.1, of_decide_eq_true h2.2⟩
  · rw [if_neg hs] at h
    have h2 := List.mem_filter.mp h
    exact ⟨h2.1, of_decide_eq_true h2.2⟩

/-- The names of the resolver's output are the ordered names that resolve in
`table_map`. -/
theorem filterMap_lookup_names (filtered : List Table) :
    ∀ (ts : List String),
      (ts.filterMap (lookupTable filtered)).map (fun t => t.name) =
        ts.filter (fun n => (lookupTable filtered n).isSome) := by
  intro ts
  induction ts with
  | nil => rfl
  | cons n ts' ih =>
    cases hl : lookupTable filtered n with
    | none => simp [List.filterMap_cons, hl, List.filter_cons, ih]
    | some t =>
      have hname := (lookupTable_some hl).1
      simp [List.filterMap_cons, hl, List.filter_cons, ih, hname]

theorem get?_decomp : ∀ (l : List String) (i : Nat) (a : String),
    l.get? i = some a → l = l.take i ++ a :: l.drop (i + 1) := by
  intro l
  induction l with
  | nil => intro i a h; cases i <;> exact Option.noConfusion h
  | cons x xs ih =>
    intro i a h
    cases i with
    | zero =>
      obtain rfl : x = a := Option.some.inj h
      simp
    | succ i' =>
      have h' : xs.get? i' = some a := h
      have hx := ih i' a h'
      calc x :: xs = x :: (xs.take i' ++ a :: xs.drop (i' + 1)) := by rw [← hx]
        _ = (x :: xs).take (i' + 1) ++ a :: (x :: xs).drop (i' + 2) := by
            simp [List.take_succ_cons, List.drop_succ_cons]

/-- “`b` appears at or before `a`”: positions `j ≤ i` carrying them. -/
def appearsAtOrBefore (l : List String) (b a : String) : Prop :=
  ∃ j i : Nat, j ≤ i ∧ l.get? j = some b ∧ l.get? i = some a

theorem appears_of_decomp {pre post : List String} {b a : String}
    (hb : b ∈ pre ∨ b = a) : appearsAtOrBefore (pre ++ a :: post) b a := by
  have ha : (pre ++ a :: post).get? pre.length = some a := by
    rw [List.get?_append_right (Nat.le_refl _)]
    simp
  rcases hb with hb | rfl
  · obtain ⟨j, hj⟩ := List.get?_of_mem hb
    have hjlt : j < pre.length := by
      by_contra hge
      rw [List.get?_eq_none.mpr (Nat.le_of_not_lt hge)] at hj
      exact Option.noConfusion hj
    exact ⟨j, pre.length, Nat.le_of_lt hjlt, by rw [List.get?_append hjlt]; exact hj, ha⟩
  · exact ⟨pre.length, pre.length, Nat.le_refl _, ha, ha⟩

/-- A mongodb source: collection `a` carries a (reconstructed) foreign key to
collection `b`. -/
def collA : Table := { name := "a", foreign_keys := [⟨"bid", some "b", "x"⟩] }

/-- A mongodb source: collection `b`, no foreign keys. -/
def collB : Table := { name := "b" }

/-- Claim C3, counterexample: with the selection `["ghost", "a"]` over a
document-engine schema holding collections `a` (with a reconstructed foreign
key to `b`) and `b`, the resolver returns only `a`: the returned set is not a
superset of the selection (no returned table is named `ghost`), and the
returned collection `a` has a foreign key targeting `b`, which is resolvable
(present in the filtered schema) yet not returned — for a mongodb source the
dependency map is empty, so foreign keys are never expanded. -/
theorem dependency_closure_counterexample :
    resolve_dependencies "mongodb" [collA, collB] ["ghost", "a"] = [collA]
  ∧ "ghost" ∈ ["ghost", "a"]
  ∧ (∀ u ∈ resolve_dependencies "mongodb" [collA, collB] ["ghost", "a"], u.name ≠ "ghost")
  ∧ (⟨"bid", some "b", "x"⟩ : ForeignKey) ∈ collA.foreign_keys
  ∧ (∃ t ∈ filteredTables "mongodb" [collA, collB], t.name = "b")
  ∧ (∀ u ∈ resolve_dependencies "mongodb" [collA, collB] ["ghost", "a"], u.name ≠ "b") := by
  refine ⟨by decide, by decide, by decide, by decide, by decide, by decide⟩

/-- Claim C3 as amended: for a relational source, and a selection every name of
which is a (non-internal) table of the schema, the resolver returns a superset
of the selection, and every foreign key of every returned table either targets
a returned table or targets nothing resolvable (no filtered table bears the
referenced name). -/
theorem dependency_closure_amended (source_db_type : String) (all_tables : List Table)
    (selected : List String)
    (hsrc : source_db_type ≠ "mongodb")
    (hname : ∀ t ∈ all_tables, t.name ≠ "")
    (hsel : ∀ s ∈ selected, ∃ t ∈ filteredTables source_db_type all_tables, t.name = s) :
    (∀ s ∈ selected,
      ∃ u ∈ resolve_dependencies source_db_type all_tables selected, u.name = s)
  ∧ (∀ u ∈ resolve_dependencies source_db_type all_tables selected,
      ∀ fk ∈ u.foreign_keys, ∀ r, fk.references_table = some r →
      (∃ t ∈ filteredTables source_db_type all_tables, t.name = r) →
      ∃ w ∈ resolve_dependencies source_db_type all_tables selected, w.name = r) := by
  set filtered := filteredTables source_db_type all_tables with hfiltered
  set dm := depsMap source_db_type filtered with hdm
  set V := filtered.map (fun t => t.name) with hV
  set init := resolverInit selected with hinit
  set incl := inclOf dm V init with hincl
  set ordered := orderedOf dm incl with hordered
  have hres : resolve_dependencies source_db_type all_tables selected =
      ordered.filterMap (lookupTable filtered) := rfl
  have hord_result : ∀ n, n ∈ ordered → (∃ t ∈ filtered, t.name = n) →
      ∃ w ∈ resolve_dependencies source_db_type all_tables selected, w.name = n := by
    intro n hn hex
    obtain ⟨w, hw⟩ := lookupTable_isSome hex
    exact ⟨w, hres ▸ List.mem_filterMap.mpr ⟨n, hn, hw⟩, (lookupTable_some hw).1⟩
  have hsel_ord : ∀ s ∈ selected, s ∈ ordered := by
    intro s hs
    obtain ⟨t, ht, htn⟩ := hsel s hs
    have hnotint : s ∉ SQLITE_INTERNAL_TABLES := htn ▸ (mem_filteredTables ht).2
    have hsinit : s ∈ init := by
      rw [hinit]
      exact List.mem_filter.mpr ⟨hs, decide_eq_true hnotint⟩
    have hsincl : s ∈ incl := (inclOf_spec dm V init).1 s hsinit
    exact (orderedOf_spec dm incl).2.2 s hsincl
  constructor
  · intro s hs
    exact hord_result s (hsel_ord s hs) (hsel s hs)
  · intro u hu fk hfk r href hex
    rw [hres] at hu
    obtain ⟨n, hn_ord, hlook⟩ := List.mem_filterMap.mp hu
    obtain ⟨hun, huf⟩ := lookupTable_some hlook
    by_cases hr : r = u.name
    · exact ⟨u, hres ▸ List.mem_filterMap.mpr ⟨n, hn_ord, hlook⟩, hr ▸ rfl⟩
    · obtain ⟨t, ht, htn⟩ := hex
      have hr_ne : r ≠ "" := htn ▸ hname t (mem_filteredTables ht).1
      have hr_int : r ∉ SQLITE_INTERNAL_TABLES := htn ▸ (mem_filteredTables ht).2
      have hdep : r ∈ depsOfTable source_db_type u := by
        unfold depsOfTable
        rw [if_neg hsrc]
        refine List.mem_filterMap.mpr ⟨fk, hfk, ?_⟩
        rw [href]
        show (if r ≠ "" ∧ r ≠ u.name ∧ r ∉ SQLITE_INTERNAL_TABLES then some r else none) =
          some r
        rw [if_pos ⟨hr_ne, hr, hr_int⟩]
      have hn_incl : n ∈ incl := (orderedOf_spec dm incl).1 n hn_ord
      have hdone := (inclOf_spec dm V init).2.2 n hn_incl
      have hdmn : dm n = some (depsOfTable source_db_type u) := by
        rw [hdm]
        unfold depsMap
        rw [hlook]
        rfl
      have hrV : r ∈ V := by
        rw [hV]
        exact List.mem_map.mpr ⟨t, ht, htn⟩
      have hr_incl : r ∈ incl := hdone _ hdmn r hdep hrV
      have hr_ord : r ∈ ordered := (orderedOf_spec dm incl).2.2 r hr_incl
      exact hord_result r hr_ord ⟨t, ht, htn⟩

/-- Witness for `dependency_closure_amended` on the two-table scenario:
selecting only `orders` auto-includes `customers`. -/
def customers : Table := { name := "customers" }

/-- The `orders` table referencing `customers`. -/
def orders : Table :=
  { name := "orders", foreign_keys := [⟨"customer_id", some "customers", "id"⟩] }

theorem dependency_closure_amended_witness :
    ∃ u ∈ resolve_dependencies "postgresql" [orders, customers] ["orders"],
      u.name = "orders" := by
  exact (dependency_closure_amended "postgresql" [orders, customers] ["orders"]
    (by decide) (by decide) (by decide)).1 "orders" (by decide)

/-- Claim C4, counterexample: for a document-engine source the resolver
ignores foreign keys (its dependency map is empty — the subgraph it orders by
is trivially acyclic), so returned collection `a`, which references returned
collection `b`, can precede it in the returned order. -/
theorem topological_order_counterexample :
    resolve_dependencies "mongodb" [collA, collB] ["a", "b"] = [collA, collB]
  ∧ (⟨"bid", some "b", "x"⟩ : ForeignKey) ∈ collA.foreign_keys
  ∧ collB.name = "b"
  ∧ ¬ appearsAtOrBefore
      ((resolve_dependencies "mongodb" [collA, collB] ["a", "b"]).map (fun t => t.name))
      "b" "a" := by
  refine ⟨by decide, by decide, by decide, ?_⟩
  rintro ⟨j, i, hji, hb, ha⟩
  have hmap : (resolve_dependencies "mongodb" [collA, collB] ["a", "b"]).map
      (fun t => t.name) = ["a", "b"] := by decide
  rw [hmap] at hb ha
  have hj : j = 1 := by
    rcases j with _ | _ | j
    · exact absurd (Option.some.inj hb) (by decide)
    · rfl
    · exact Option.noConfusion hb
  have hi : i = 0 := by
    rcases i with _ | _ | i
    · rfl
    · exact absurd (Option.some.inj ha) (by decide)
    · exact Option.noConfusion ha
  omega

/-- Claim C4 as amended: for a relational source whose dependency edges admit a
rank function (an acyclic dependency subgraph) and a schema with nonempty table
names, whenever a returned table `A` has a foreign key referencing a returned
table `B`, `B` appears at or before `A` in the returned order (`B = A` for a
self-referencing key). -/
theorem topological_order_amended (source_db_type : String) (all_tables : List Table)
    (selected : List String) (rank : String → Nat)
    (hsrc : source_db_type ≠ "mongodb")
    (hname : ∀ t ∈ all_tables, t.name ≠ "")
    (hrank : ∀ t ∈ filteredTables source_db_type all_tables,
      ∀ d ∈ depsOfTable source_db_type t, rank d < rank t.name) :
    ∀ A ∈ resolve_dependencies source_db_type all_tables selected,
    ∀ B ∈ resolve_dependencies source_db_type all_tables selected,
    ∀ fk ∈ A.foreign_keys, fk.references_table = some B.name →
    appearsAtOrBefore
      ((resolve_dependencies source_db_type all_tables selected).map (fun t => t.name))
      B.name A.name := by
  set filtered := filteredTables source_db_type all_tables with hfiltered
  set dm := depsMap source_db_type filtered with hdm
  set V := filtered.map (fun t => t.name) with hV
  set init := resolverInit selected with hinit
  set incl := inclOf dm V init with hincl
  set ordered := orderedOf dm incl with hordered
  have hres : resolve_dependencies source_db_type all_tables selected =
      ordered.filterMap (lookupTable filtered) := rfl
  have hnames : (resolve_dependencies source_db_type all_tables selected).map
      (fun t => t.name) = ordered.filter (fun n => (lookupTable filtered n).isSome) := by
    rw [hres]
    exact filterMap_lookup_names filtered ordered
  have hrk : rankOk dm incl rank := by
    intro n d hd
    unfold depsIncl at hd
    cases hdmn : dm n with
    | none => rw [hdmn] at hd; exact absurd hd (List.not_mem_nil d)
    | some ds =>
      rw [hdmn] at hd
      have hd' : d ∈ ds.filter (fun d => decide (d ∈ incl)) := hd
      have hds := (List.mem_filter.mp hd').1
      rw [hdm] at hdmn
      unfold depsMap at hdmn
      cases hlk : lookupTable filtered n with
      | none => rw [hlk] at hdmn; exact Option.noConfusion hdmn
      | some t =>
        rw [hlk] at hdmn
        obtain rfl : depsOfTable source_db_type t = ds := Option.some.inj hdmn
        obtain ⟨htn, htf⟩ := lookupTable_some hlk
        have := hrank t htf d hds
        rw [htn] at this
        exact this
  intro A hA B hB fk hfk href
  rw [hres] at hA hB
  obtain ⟨na, hna_ord, hlookA⟩ := List.mem_filterMap.mp hA
  obtain ⟨nb, hnb_ord, hlookB⟩ := List.mem_filterMap.mp hB
  obtain ⟨hAn, hAf⟩ := lookupTable_some hlookA
  obtain ⟨hBn, hBf⟩ := lookupTable_some hlookB
  by_cases heq : B.name = A.name
  · rw [heq]
    have hmem : A.name ∈ (resolve_dependencies source_db_type all_tables selected).map
        (fun t => t.name) := List.mem_map.mpr ⟨A, hres ▸ hA, rfl⟩
    obtain ⟨i, hi⟩ := List.get?_of_mem hmem
    exact ⟨i, i, Nat.le_refl _, hi, hi⟩
  · have hB_ne : B.name ≠ "" := hname B (mem_filteredTables hBf).1
    have hB_int : B.name ∉ SQLITE_INTERNAL_TABLES := (mem_filteredTables hBf).2
    have hdep : B.name ∈ depsOfTable source_db_type A := by
      unfold depsOfTable
      rw [if_neg hsrc]
      refine List.mem_filterMap.mpr ⟨fk, hfk, ?_⟩
      rw [href]
      show (if B.name ≠ "" ∧ B.name ≠ A.name ∧ B.name ∉ SQLITE_INTERNAL_TABLES
        then some B.name else none) = some B.name
      rw [if_pos ⟨hB_ne, heq, hB_int⟩]
    have hdmA : dm na = some (depsOfTable source_db_type A) := by
      rw [hdm]
      unfold depsMap
      rw [hlookA]
      rfl
    have hB_incl : B.name ∈ incl := by
      have h' := (orderedOf_spec dm incl).1 nb hnb_ord
      rw [← hBn] at h'
      exact h' 
    have hedge : B.name ∈ depsIncl dm incl na := by
      unfold depsIncl
      rw [hdmA]
      exact List.mem_filter.mpr ⟨hdep, decide_eq_true hB_incl⟩
    obtain ⟨i, hget⟩ := List.get?_of_mem hna_ord
    have htopo := orderedOf_topo dm incl rank hrk i na hget B.name hedge
    have hdecomp := get?_decomp ordered i na hget
    have hkeepA : (lookupTable filtered na).isSome = true := by rw [hlookA]; rfl
    have hkeepB : (lookupTable filtered B.name).isSome = true := by
      rw [hBn, hlookB]
      rfl
    rw [hnames]
    rw [hdecomp, List.filter_append, List.filter_cons, hkeepA]
    simp only [if_true]
    rw [← hAn]
    apply appears_of_decomp
    exact Or.inl (List.mem_filter.mpr ⟨htopo, hkeepB⟩)

/-- Witness for `topological_order_amended`: `customers` appears before the
`orders` table that references it. -/
theorem topological_order_amended_witness :
    appearsAtOrBefore
      ((resolve_dependencies "postgresql" [orders, customers] ["orders"]).map
        (fun t => t.name))
      "customers" "orders" := by
  exact topological_order_amended "postgresql" [orders, customers] ["orders"]
    (fun n => if n = "orders" then 1 else 0) (by decide) (by decide) (by decide)
    orders (by decide) customers (by decide)
    ⟨"customer_id", some "customers", "id"⟩ (by decide) rfl

/-- Claim C5: a table with a foreign key referencing itself is never treated as
depending on itself (the self-edge is excluded from the dependency map), and —
when the table is selected and present in the filtered schema — it appears
exactly once in the returned order.  The resolver's termination is witnessed by
the embedding being a total function (the recursion depth is bounded by the
number of filtered tables, supplied as fuel in excess). -/
theorem self_reference_exclusion (source_db_type : String) (all_tables : List Table)
    (selected : List String) (t : Table)
    (hself : ∃ fk ∈ t.foreign_keys, fk.references_table = some t.name)
    (hlook : lookupTable (filteredTables source_db_type all_tables) t.name = some t)
    (hsel : t.name ∈ selected) :
    t.name ∉ depsOfTable source_db_type t
  ∧ ((resolve_dependencies source_db_type all_tables selected).map
      (fun u => u.name)).count t.name = 1 := by
  obtain ⟨fk0, hfk0, hfk0r⟩ := hself
  constructor
  · intro hmem
    unfold depsOfTable at hmem
    by_cases hs : source_db_type = "mongodb"
    · rw [if_pos hs] at hmem
      exact absurd hmem (List.not_mem_nil _)
    · rw [if_neg hs] at hmem
      obtain ⟨fk, _, heq⟩ := List.mem_filterMap.mp hmem
      cases hrt : fk.references_table with
      | none => rw [hrt] at heq; exact Option.noConfusion heq
      | some r =>
        rw [hrt] at heq
        by_cases hcond : r ≠ "" ∧ r ≠ t.name ∧ r ∉ SQLITE_INTERNAL_TABLES
        · have heq' : (if r ≠ "" ∧ r ≠ t.name ∧ r ∉ SQLITE_INTERNAL_TABLES
              then some r else none) = some t.name := heq
          rw [if_pos hcond] at heq'
          exact hcond.2.1 (Option.some.inj heq')
        · have heq' : (if r ≠ "" ∧ r ≠ t.name ∧ r ∉ SQLITE_INTERNAL_TABLES
              then some r else none) = some t.name := heq
          rw [if_neg hcond] at heq'
          exact Option.noConfusion heq'
  · set filtered := filteredTables source_db_type all_tables with hfiltered
    set dm := depsMap source_db_type filtered with hdm
    set V := filtered.map (fun u => u.name) with hV
    set init := resolverInit selected with hinit
    set incl := inclOf dm V init with hincl
    set ordered := orderedOf dm incl with hordered
    have hres : resolve_dependencies source_db_type all_tables selected =
        ordered.filterMap (lookupTable filtered) := rfl
    have hnames : (resolve_dependencies source_db_type all_tables selected).map
        (fun u => u.name) = ordered.filter (fun n => (lookupTable filtered n).isSome) := by
      rw [hres]
      exact filterMap_lookup_names filtered ordered
    have htf : t ∈ filtered := (lookupTable_some hlook).2
    have hint : t.name ∉ SQLITE_INTERNAL_TABLES := (mem_filteredTables htf).2
    have htinit : t.name ∈ init := by
      rw [hinit]
      exact List.mem_filter.mpr ⟨hsel, decide_eq_true hint⟩
    have htord : t.name ∈ ordered :=
      (orderedOf_spec dm incl).2.2 t.name ((inclOf_spec dm V init).1 t.name htinit)
    have hkeep : (lookupTable filtered t.name).isSome = true := by rw [hlook]; rfl
    have hmem : t.name ∈ (resolve_dependencies source_db_type all_tables selected).map
        (fun u => u.name) := by
      rw [hnames]
      exact List.mem_filter.mpr ⟨htord, hkeep⟩
    have hnd : ((resolve_dependencies source_db_type all_tables selected).map
        (fun u => u.name)).Nodup := by
      rw [hnames]
      exact ((orderedOf_spec dm incl).2.1).filter _
    have h1 := List.nodup_iff_count_le_one.mp hnd t.name
    have h2 := List.count_pos_iff_mem.mpr hmem
    omega

/-- A table with a self-referencing foreign key. -/
def employees : Table :=
  { name := "employees", foreign_keys := [⟨"manager_id", some "employees", "id"⟩] }

/-- Witness for `self_reference_exclusion` on a one-table schema with a literal
self-referencing foreign key. -/
theorem self_reference_exclusion_witness :
    "employees" ∉ depsOfTable "sqlite" employees
  ∧ ((resolve_dependencies "sqlite" [employees] ["employees"]).map
      (fun u => u.name)).count "employees" = 1 := by
  exact self_reference_exclusion "sqlite" [employees] ["employees"] employees
    ⟨⟨"manager_id", some "employees", "id"⟩, by decide, rfl⟩ (by decide) (by decide)
